import Mathlib

/-!
Verification of `Scripts/debug-log-server.py`: a single-file HTTP debug-log
server.  The Python program is shallowly embedded: JSON values decoded by
`json.loads` become the inductive type `Json`, the request handler
`LogHandler.do_POST` becomes the Lean function `handlePost`, `do_GET` becomes
`handleGet`, and the log file becomes an explicit `String` threaded through
the handlers.  Python exceptions that escape the handler are modelled by the
`Response.unhandled` constructor.

Modelling conventions:
* Python numbers are modelled as integers (`Json.num : Int`).  IEEE-754
  floating point is outside the model, so JSON float literals (`1.5`, `1e3`,
  `NaN`, `Infinity`) are rejected by the modelled parser where `json.loads`
  would produce a `float`.
* `datetime.now()` and `datetime.fromtimestamp` depend on the wall clock and
  the local time zone, so they are parameters of the handler (`PostEnv`);
  `fromtimestamp` returns `Option` because it raises on out-of-range values.
* `str.upper`/`str.lower` are modelled by the ASCII case maps.
-/

namespace DebugLog

/-- A decoded JSON value, as produced by Python's `json.loads`.
Objects keep their key insertion order, as Python dicts do. -/
inductive Json where
  | null : Json
  | bool (b : Bool) : Json
  | num (n : Int) : Json
  | str (s : String) : Json
  | arr (elems : List Json) : Json
  | obj (members : List (String × Json)) : Json

/-- Python dict lookup with default: `d.get(k, dflt)`. -/
def dictGet : List (String × Json) → String → Json → Json
  | [], _, dflt => dflt
  | (k', v) :: t, k, dflt => if k' = k then v else dictGet t k dflt

/-- Python dict assignment `d[k] = v`: overwrite in place if the key exists
(keeping its position), otherwise append at the end. -/
def dictInsert : List (String × Json) → String → Json → List (String × Json)
  | [], k, v => [(k, v)]
  | (k', v') :: t, k, v =>
      if k' = k then (k', v) :: t else (k', v') :: dictInsert t k v

/-- The keys of a decoded object, in order. -/
def dictKeys (d : List (String × Json)) : List String := d.map Prod.fst

/-- Python truthiness of a JSON-decoded value
(`None`/`False`/`0`/`""`/`[]`/`{}` are falsy). -/
def pyTruthy : Json → Bool
  | .null => false
  | .bool b => b
  | .num n => n != 0
  | .str s => s != ""
  | .arr l => !l.isEmpty
  | .obj m => !m.isEmpty

/-- Coercion of a JSON value to a number for Python's `/` operator; `none`
models a `TypeError` (Python `bool` is an `int`, so it coerces). -/
def jsonAsNum : Json → Option Rat
  | .num n => some (n : Rat)
  | .bool b => some (if b then 1 else 0)
  | _ => none

/-- `hay` starts with `pat` (on character lists). -/
def listStartsWith : List Char → List Char → Bool
  | _, [] => true
  | [], _ :: _ => false
  | c :: cs, d :: ds => c = d && listStartsWith cs ds

/-- Substring test on character lists; Python's `pat in hay`. -/
def listHasSub : List Char → List Char → Bool
  | [], pat => listStartsWith [] pat
  | c :: t, pat => listStartsWith (c :: t) pat || listHasSub t pat

/-- Python's `sub in s` on strings. -/
def strHasSub (s sub : String) : Bool := listHasSub s.toList sub.toList

/-- Python `str.upper()` (ASCII case map in the model). -/
def pyUpper (s : String) : String := String.mk (s.toList.map Char.toUpper)

/-- Python `str.lower()` (ASCII case map in the model). -/
def pyLower (s : String) : String := String.mk (s.toList.map Char.toLower)

/-- Lowercase hexadecimal digit. -/
def hexDigitChar (n : Nat) : Char :=
  if n < 10 then Char.ofNat (48 + n) else Char.ofNat (87 + n)

/-- Decimal digit character. -/
def decDigitChar (n : Nat) : Char := Char.ofNat (48 + n)

/-- Escaping of one character inside a Python `repr` of a string, where `q`
is the chosen quote character.  (Python additionally escapes non-printable
characters beyond ASCII based on Unicode categories; the model keeps those
as-is, which does not affect the letter-substring checks of the program.) -/
def pyEscChar (q : Char) (c : Char) : List Char :=
  if c = '\\' then ['\\', '\\']
  else if c = q then ['\\', q]
  else if c = '\n' then ['\\', 'n']
  else if c = '\r' then ['\\', 'r']
  else if c = '\t' then ['\\', 't']
  else if c.toNat < 32 || c.toNat = 127 then
    ['\\', 'x', hexDigitChar (c.toNat / 16 % 16), hexDigitChar (c.toNat % 16)]
  else [c]

/-- Python `repr` of a string: single quotes, unless the string contains a
single quote and no double quote. -/
def pyReprStr (s : String) : String :=
  let sq := Char.ofNat 39
  let dq := Char.ofNat 34
  let q := if s.toList.contains sq && !(s.toList.contains dq) then dq else sq
  String.mk (q :: s.toList.flatMap (pyEscChar q) ++ [q])

/-- Decimal digits of a natural number, most significant first (helper). -/
def natDigitsAux : Nat → List Char → List Char
  | 0, acc => acc
  | n + 1, acc => natDigitsAux ((n + 1) / 10) (decDigitChar ((n + 1) % 10) :: acc)

/-- Decimal representation of a natural number. -/
def natDigits (n : Nat) : List Char :=
  if n = 0 then ['0'] else natDigitsAux n []

/-- Python `repr` of an integer. -/
def intRepr (n : Int) : String :=
  if n < 0 then String.mk ('-' :: natDigits n.natAbs) else String.mk (natDigits n.toNat)

mutual
/-- Python `repr` of a JSON-decoded value. -/
def pyRepr : Json → String
  | .null => "None"
  | .bool true => "True"
  | .bool false => "False"
  | .num n => intRepr n
  | .str s => pyReprStr s
  | .arr l => "[" ++ pyReprList l ++ "]"
  | .obj m => "\x7b" ++ pyReprMembers m ++ "\x7d"

/-- Comma-separated `repr`s of list elements. -/
def pyReprList : List Json → String
  | [] => ""
  | [x] => pyRepr x
  | x :: y :: t => pyRepr x ++ ", " ++ pyReprList (y :: t)

/-- Comma-separated `repr`s of dict entries. -/
def pyReprMembers : List (String × Json) → String
  | [] => ""
  | [(k, v)] => pyReprStr k ++ ": " ++ pyRepr v
  | (k, v) :: m :: t => pyReprStr k ++ ": " ++ pyRepr v ++ ", " ++ pyReprMembers (m :: t)
end

/-- Python `str()` of a JSON-decoded value: a string renders as itself,
everything else as its `repr`. -/
def pyStr : Json → String
  | .str s => s
  | j => pyRepr j

/-- The ANSI color chosen by the handler's console rendering. -/
inductive Color where
  | red | yellow | cyan | magenta | green
deriving DecidableEq

/-- The color-selection chain of `do_POST` (source lines 47–56), a pure
function of the `message` string and the `data` value. -/
def selectColor (message : String) (logData : Json) : Color :=
  if strHasSub (pyUpper message) "ERROR" || strHasSub (pyUpper message) "FAIL" then .red
  else if strHasSub (pyStr logData) "currentIDs" || strHasSub (pyStr logData) "optimisticIDs" then .yellow
  else if strHasSub (pyLower message) "restore" then .cyan
  else if strHasSub (pyLower message) "notify" then .magenta
  else .green

/-- A broken-down `datetime.datetime` value (the fields the program reads). -/
structure PyDateTime where
  year : Nat
  month : Nat
  day : Nat
  hour : Nat
  minute : Nat
  second : Nat
  microsecond : Nat

/-- The field ranges `datetime` guarantees. -/
def PyDateTime.valid (dt : PyDateTime) : Prop :=
  dt.year ≤ 9999 ∧ dt.month ≤ 12 ∧ dt.day ≤ 31 ∧ dt.hour ≤ 23 ∧
  dt.minute ≤ 59 ∧ dt.second ≤ 59 ∧ dt.microsecond ≤ 999999

/-- Zero-padded fixed-width decimal, Python's `%0wd` (wider numbers print in
full, as in Python). -/
def padDec (w n : Nat) : List Char :=
  if n < 10 ^ w then (List.range w).reverse.map (fun i => decDigitChar (n / 10 ^ i % 10))
  else natDigits n

/-- `dt.strftime('%H:%M:%S.%f')`. -/
def strftimeHMSf (dt : PyDateTime) : String :=
  String.mk (padDec 2 dt.hour ++ ':' :: padDec 2 dt.minute ++ ':' :: padDec 2 dt.second
    ++ '.' :: padDec 6 dt.microsecond)

/-- Python string slice `s[:-3]`: all but the last three characters. -/
def pyDropLast3 (s : String) : String :=
  String.mk (s.toList.take (s.toList.length - 3))

/-- The display time string of the handler: `strftime('%H:%M:%S.%f')[:-3]`. -/
def pyTimeStr (dt : PyDateTime) : String := pyDropLast3 (strftimeHMSf dt)

/-- `datetime.isoformat()`: `YYYY-MM-DDTHH:MM:SS[.ffffff]`, the fractional
part omitted when `microsecond` is zero. -/
def isoformat (dt : PyDateTime) : String :=
  String.mk (padDec 4 dt.year ++ '-' :: padDec 2 dt.month ++ '-' :: padDec 2 dt.day
    ++ 'T' :: padDec 2 dt.hour ++ ':' :: padDec 2 dt.minute ++ ':' :: padDec 2 dt.second
    ++ (if dt.microsecond = 0 then [] else '.' :: padDec 6 dt.microsecond))

/-- Decimal digit test. -/
def isDig (c : Char) : Bool := 48 ≤ c.toNat && c.toNat ≤ 57

/-- Match a character list against a shape pattern: `D` stands for a decimal
digit, every other pattern character stands for itself. -/
def matchShape : List Char → List Char → Bool
  | [], [] => true
  | p :: ps, c :: cs => (if p = 'D' then isDig c else p = c) && matchShape ps cs
  | _, _ => false

/-- ISO-8601 validity as claimed by the spec: `YYYY-MM-DDTHH:MM:SS` with an
optional 6-digit fractional second part. -/
def isISO8601 (s : String) : Bool :=
  matchShape "DDDD-DD-DDTDD:DD:DD".toList s.toList ||
  matchShape "DDDD-DD-DDTDD:DD:DD.DDDDDD".toList s.toList

/-- Numeric value of a list of decimal digit characters. -/
def digitsVal (l : List Char) : Nat :=
  l.foldl (fun a c => a * 10 + (c.toNat - 48)) 0

/-- Python `int(s)` for a string: optional surrounding ASCII whitespace, an
optional sign, then decimal digits; `none` models `ValueError`.  (Python also
accepts `_` digit grouping and Unicode digits, which the model omits.) -/
def pyInt (s : String) : Option Int :=
  let ws := fun c : Char => c = ' ' || c = '\t' || c = '\n' || c = '\r' ||
    c = '\x0b' || c = '\x0c'
  let t := ((s.toList.dropWhile ws).reverse.dropWhile ws).reverse
  let core := match t with
    | '-' :: r => some (true, r)
    | '+' :: r => some (false, r)
    | r => some (false, r)
  match core with
  | some (neg, digits) =>
      if digits ≠ [] && digits.all isDig then
        let v : Int := digitsVal digits
        some (if neg then -v else v)
      else none
  | none => none

/-- `int(self.headers.get('Content-Length', 0))`: an absent header yields the
default `0`; a present header string is parsed by `int()`. -/
def contentLengthOf : Option String → Option Int
  | none => some 0
  | some h => pyInt h

/-- Strict UTF-8 decoding of a byte list, as `bytes.decode('utf-8')`:
rejects truncated and overlong sequences, surrogates, and values above
`0x10FFFF`; `none` models `UnicodeDecodeError`. -/
def utf8Decode : List Nat → Option (List Char)
  | [] => some []
  | b :: bs =>
    if b < 0x80 then
      (utf8Decode bs).map (Char.ofNat b :: ·)
    else if b < 0xC2 then none
    else if b < 0xE0 then
      match bs with
      | b2 :: bs2 =>
        if 0x80 ≤ b2 && b2 < 0xC0 then
          (utf8Decode bs2).map (Char.ofNat ((b - 0xC0) * 0x40 + (b2 - 0x80)) :: ·)
        else none
      | [] => none
    else if b < 0xF0 then
      match bs with
      | b2 :: b3 :: bs3 =>
        let lo := if b = 0xE0 then 0xA0 else 0x80
        let hi := if b = 0xED then 0xA0 else 0xC0
        if lo ≤ b2 && b2 < hi && 0x80 ≤ b3 && b3 < 0xC0 then
          (utf8Decode bs3).map
            (Char.ofNat ((b - 0xE0) * 0x1000 + (b2 - 0x80) * 0x40 + (b3 - 0x80)) :: ·)
        else none
      | _ => none
    else if b < 0xF5 then
      match bs with
      | b2 :: b3 :: b4 :: bs4 =>
        let lo := if b = 0xF0 then 0x90 else 0x80
        let hi := if b = 0xF4 then 0x90 else 0xC0
        if lo ≤ b2 && b2 < hi && 0x80 ≤ b3 && b3 < 0xC0 && 0x80 ≤ b4 && b4 < 0xC0 then
          (utf8Decode bs4).map
            (Char.ofNat ((b - 0xF0) * 0x40000 + (b2 - 0x80) * 0x1000 +
              (b3 - 0x80) * 0x40 + (b4 - 0x80)) :: ·)
        else none
      | _ => none
    else none

/-- ASCII bytes of a string (test-input helper). -/
def asciiBytes (s : String) : List Nat := s.toList.map Char.toNat

/-- Opening brace character. -/
def lbrace : Char := Char.ofNat 123

/-- Closing brace character. -/
def rbrace : Char := Char.ofNat 125

/-- Four lowercase hex digits, most significant first. -/
def hex4 (n : Nat) : List Char :=
  [hexDigitChar (n / 4096 % 16), hexDigitChar (n / 256 % 16),
   hexDigitChar (n / 16 % 16), hexDigitChar (n % 16)]

/-- `json.dumps` escaping of one string character (default `ensure_ascii=True`:
short escapes, `\u00xx` for other controls, `\uxxxx` for non-ASCII, surrogate
pairs above the BMP). -/
def escJChar (c : Char) : List Char :=
  if c = '"' then ['\\', '"']
  else if c = '\\' then ['\\', '\\']
  else if c = '\n' then ['\\', 'n']
  else if c = '\r' then ['\\', 'r']
  else if c = '\t' then ['\\', 't']
  else if c.toNat = 8 then ['\\', 'b']
  else if c.toNat = 12 then ['\\', 'f']
  else if c.toNat < 0x20 then '\\' :: 'u' :: hex4 c.toNat
  else if c.toNat < 0x7f then [c]
  else if c.toNat < 0x10000 then '\\' :: 'u' :: hex4 c.toNat
  else '\\' :: 'u' :: hex4 (0xD800 + (c.toNat - 0x10000) / 0x400) ++
       '\\' :: 'u' :: hex4 (0xDC00 + (c.toNat - 0x10000) % 0x400)

/-- `json.dumps` escaping of a whole string (without the quotes). -/
def escJ (s : String) : List Char := s.toList.flatMap escJChar

/-- Decimal representation of a JSON integer. -/
def intDigits (n : Int) : List Char :=
  if n < 0 then '-' :: natDigits n.natAbs else natDigits n.toNat

mutual
/-- `json.dumps` with its default separators (`', '` and `': '`). -/
def emitVal : Json → List Char
  | .null => 'n' :: ['u', 'l', 'l']
  | .bool true => 't' :: ['r', 'u', 'e']
  | .bool false => 'f' :: 'a' :: ['l', 's', 'e']
  | .num n => intDigits n
  | .str s => '"' :: escJ s ++ ['"']
  | .arr [] => ['[', ']']
  | .arr (v :: t) => '[' :: (emitVal v ++ emitArrSep t)
  | .obj [] => [lbrace, rbrace]
  | .obj ((k, v) :: t) => lbrace :: (emitMember k v ++ emitObjSep t)

/-- One serialized object member `"k": v`. -/
def emitMember (k : String) (v : Json) : List Char :=
  '"' :: escJ k ++ '"' :: ':' :: ' ' :: emitVal v

/-- Remaining array elements after the first, then `]`. -/
def emitArrSep : List Json → List Char
  | [] => [']']
  | v :: t => ',' :: ' ' :: (emitVal v ++ emitArrSep t)

/-- Remaining object members after the first, then the closing brace. -/
def emitObjSep : List (String × Json) → List Char
  | [] => [rbrace]
  | (k, v) :: t => ',' :: ' ' :: (emitMember k v ++ emitObjSep t)
end

/-- `json.dumps` on a decoded value, as a string. -/
def jsonDumps (j : Json) : String := String.mk (emitVal j)

/-- Objects (at every level) have distinct keys — true of everything
`json.loads` produces. -/
def nodupKeysB : List (String × Json) → Bool
  | [] => true
  | (k, _) :: t => !(t.map Prod.fst).contains k && nodupKeysB t

mutual
/-- Well-formedness of a decoded value: object keys are distinct at every
nesting level. -/
def wfJ : Json → Bool
  | .null => true
  | .bool _ => true
  | .num _ => true
  | .str _ => true
  | .arr l => wfList l
  | .obj m => nodupKeysB m && wfMembers m

/-- `wfJ` on every list element. -/
def wfList : List Json → Bool
  | [] => true
  | v :: t => wfJ v && wfList t

/-- `wfJ` on every member value. -/
def wfMembers : List (String × Json) → Bool
  | [] => true
  | (_, v) :: t => wfJ v && wfMembers t
end

/-- Skip JSON whitespace (space, tab, newline, carriage return). -/
def skipWs : List Char → List Char
  | [] => []
  | c :: cs => if c = ' ' || c = '\t' || c = '\n' || c = '\r' then skipWs cs else c :: cs

/-- Hex digit value (both cases), as accepted by `\uXXXX` escapes. -/
def hexVal (c : Char) : Option Nat :=
  if 48 ≤ c.toNat && c.toNat ≤ 57 then some (c.toNat - 48)
  else if 97 ≤ c.toNat && c.toNat ≤ 102 then some (c.toNat - 87)
  else if 65 ≤ c.toNat && c.toNat ≤ 70 then some (c.toNat - 55)
  else none

/-- Four hex digits at the head of the input, with the remainder. -/
def hex4At : List Char → Option (Nat × List Char)
  | h1 :: h2 :: h3 :: h4 :: rest =>
    match hexVal h1, hexVal h2, hexVal h3, hexVal h4 with
    | some a, some b, some g, some d => some (a * 4096 + b * 256 + g * 16 + d, rest)
    | _, _, _, _ => none
  | _ => none

/-- The character denoted by a single-letter escape, if any. -/
def escCharOf (e : Char) : Option Char :=
  if e = '"' then some '"'
  else if e = '\\' then some '\\'
  else if e = '/' then some '/'
  else if e = 'b' then some (Char.ofNat 8)
  else if e = 'f' then some (Char.ofNat 12)
  else if e = 'n' then some '\n'
  else if e = 'r' then some '\r'
  else if e = 't' then some '\t'
  else none

/-- JSON string-body parser (after the opening quote): returns the decoded
characters and the input after the closing quote.  Strict mode: raw control
characters are rejected.  Surrogate `\u` escapes must pair up (Python itself
keeps lone surrogates, which Lean strings cannot represent; events containing
them are outside the model).  The fuel only bounds recursion depth; every
step consumes at least one input character, so `length + 1` always
suffices. -/
def parseStr : Nat → List Char → Option (List Char × List Char)
  | 0, _ => none
  | fuel + 1, cs =>
    match cs with
    | [] => none
    | c :: cs1 =>
      if c = '"' then some ([], cs1)
      else if c = '\\' then
        match cs1 with
        | [] => none
        | e :: cs2 =>
          if e = 'u' then
            match hex4At cs2 with
            | some (n, cs3) =>
              if 55296 ≤ n ∧ n < 56320 then
                match cs3 with
                | x1 :: x2 :: cs4 =>
                  if x1 = '\\' ∧ x2 = 'u' then
                    match hex4At cs4 with
                    | some (m, cs5) =>
                      if 56320 ≤ m ∧ m < 57344 then
                        (parseStr fuel cs5).map (fun p =>
                          (Char.ofNat (65536 + (n - 55296) * 1024 + (m - 56320)) :: p.1, p.2))
                      else none
                    | none => none
                  else none
                | _ => none
              else if 56320 ≤ n ∧ n < 57344 then none
              else (parseStr fuel cs3).map (fun p => (Char.ofNat n :: p.1, p.2))
            | none => none
          else
            match escCharOf e with
            | some out => (parseStr fuel cs2).map (fun p => (out :: p.1, p.2))
            | none => none
      else if c.toNat < 32 then none
      else (parseStr fuel cs1).map (fun p => (c :: p.1, p.2))

/-- Unsigned part of a JSON number: a digit run (`0` or nonzero-led, as in
Python's grammar).  A following `.`/`e`/`E` would make a Python `float`,
which is outside the model, so the parse is rejected there. -/
def parseNatNum (cs : List Char) : Option (Nat × List Char) :=
  match cs with
  | c :: _ =>
    if isDig c then
      let ds := cs.takeWhile isDig
      let rest := cs.dropWhile isDig
      if decide (1 < ds.length) && ds.head? = some '0' then none
      else
        match rest with
        | r :: _ =>
          if r = '.' || r = 'e' || r = 'E' then none else some (digitsVal ds, rest)
        | [] => some (digitsVal ds, [])
    else none
  | [] => none

/-- JSON number parser: optional minus, then the unsigned digit run. -/
def parseNum (cs : List Char) : Option (Json × List Char) :=
  if cs.head? = some '-' then
    match parseNatNum cs.tail with
    | some (v, rest) => some (Json.num (-(v : Int)), rest)
    | none => none
  else
    match parseNatNum cs with
    | some (v, rest) => some (Json.num ((v : Int)), rest)
    | none => none

mutual
/-- Fuel-indexed JSON value parser, modelling `json.loads`'s grammar (minus
`float` literals and `NaN`/`Infinity`, which are outside the model). -/
def parseValue : Nat → List Char → Option (Json × List Char)
  | 0, _ => none
  | fuel + 1, input =>
    match skipWs input with
    | [] => none
    | c :: cs =>
      if c = '"' then (parseStr (cs.length + 1) cs).map (fun p => (Json.str (String.mk p.1), p.2))
      else if c = lbrace then
        match skipWs cs with
        | c2 :: cs2 =>
          if c2 = rbrace then some (Json.obj [], cs2)
          else
            match parseMember fuel (c2 :: cs2) with
            | some (k, v, r) => parseObjRest fuel (dictInsert [] k v) r
            | none => none
        | [] => none
      else if c = '[' then
        match skipWs cs with
        | c2 :: cs2 =>
          if c2 = ']' then some (Json.arr [], cs2)
          else
            match parseValue fuel (c2 :: cs2) with
            | some (v, r) =>
              match parseArrRest fuel r with
              | some (vs, r2) => some (Json.arr (v :: vs), r2)
              | none => none
            | none => none
        | [] => none
      else if c = 't' then
        match cs with
        | 'r' :: 'u' :: 'e' :: r => some (Json.bool true, r)
        | _ => none
      else if c = 'f' then
        match cs with
        | 'a' :: 'l' :: 's' :: 'e' :: r => some (Json.bool false, r)
        | _ => none
      else if c = 'n' then
        match cs with
        | 'u' :: 'l' :: 'l' :: r => some (Json.null, r)
        | _ => none
      else if c = '-' || isDig c then parseNum (c :: cs)
      else none

/-- After one array element: `, value … ]`. -/
def parseArrRest : Nat → List Char → Option (List Json × List Char)
  | 0, _ => none
  | fuel + 1, cs =>
    match skipWs cs with
    | c :: cs2 =>
      if c = ']' then some ([], cs2)
      else if c = ',' then
        match parseValue fuel cs2 with
        | some (v, r) =>
          match parseArrRest fuel r with
          | some (vs, r2) => some (v :: vs, r2)
          | none => none
        | none => none
      else none
    | [] => none

/-- One `"key": value` member (input already whitespace-skipped). -/
def parseMember : Nat → List Char → Option (String × Json × List Char)
  | 0, _ => none
  | fuel + 1, cs =>
    match cs with
    | c :: cs2 =>
      if c = '"' then
        match parseStr (cs2.length + 1) cs2 with
        | some (k, r) =>
          match skipWs r with
          | c2 :: r2 =>
            if c2 = ':' then
              match parseValue fuel r2 with
              | some (v, r3) => some (String.mk k, v, r3)
              | none => none
            else none
          | [] => none
        | none => none
      else none
    | [] => none

/-- After one object member: `, member … }`; duplicate keys resolve by dict
assignment (first position, last value), as in Python. -/
def parseObjRest : Nat → List (String × Json) → List Char → Option (Json × List Char)
  | 0, _, _ => none
  | fuel + 1, acc, cs =>
    match skipWs cs with
    | c :: cs2 =>
      if c = rbrace then some (Json.obj acc, cs2)
      else if c = ',' then
        match parseMember fuel (skipWs cs2) with
        | some (k, v, r) => parseObjRest fuel (dictInsert acc k v) r
        | none => none
      else none
    | [] => none
end

/-- `json.loads`: parse one value, then require only whitespace to follow
(`Extra data` otherwise); `none` models `json.JSONDecodeError`.  The fuel
`length + 1` bounds the parser's call depth, which the grammar keeps below
the input length since every nested call first consumes a character. -/
def jsonLoads (s : String) : Option Json :=
  match parseValue (s.toList.length + 1) s.toList with
  | some (v, rest) => if (skipWs rest).isEmpty then some v else none
  | none => none

/-- Python exceptions that can escape `do_POST` (only `json.JSONDecodeError`
is caught by the handler). -/
inductive PyExc where
  | valueError
  | unicodeDecodeError
  | typeError
  | attributeError
  | overflowError
deriving DecidableEq

/-- The HTTP response produced by a handler invocation; `unhandled` models an
exception propagating out of the handler method, in which case no response
is written. -/
inductive Response where
  | ok200 (contentType : String) (body : String)
  | err400
  | unhandled (e : PyExc)

/-- One line-group of console output, mirroring the handler's `print` calls. -/
inductive ConsoleOut where
  | header (color : Color) (timeStr : String) (hypothesisId : Json) (location : Json)
  | msgLine (message : String)
  | dataLine (key : String) (value : Json)
  | blankLine
  | decodeErr
  | bodyDump (bytes : List Nat)

/-- Wall-clock inputs of one `do_POST` invocation: the two `datetime.now()`
call results and `datetime.fromtimestamp` for the local zone (`none` models
its out-of-range exceptions). -/
structure PostEnv where
  nowIso : PyDateTime
  nowDisp : PyDateTime
  fromTs : Rat → Option PyDateTime

/-- The observable outcome of a handler invocation: response, log-file
content, and console output. -/
structure HandlerResult where
  response : Response
  file : String
  console : List ConsoleOut

/-- Source lines 34–39: the display time string.  If `timestamp` is truthy it
is divided by 1000 and converted with `fromtimestamp` (a `TypeError` on
non-numbers or a conversion failure yields `none`); otherwise the current
time is used.  Either way the result is `strftime('%H:%M:%S.%f')[:-3]`. -/
def displayTime (env : PostEnv) (ts : Json) : Option String :=
  if pyTruthy ts then
    match jsonAsNum ts with
    | none => none
    | some q =>
      match env.fromTs (q / 1000) with
      | none => none
      | some dt => some (pyTimeStr dt)
  else some (pyTimeStr env.nowDisp)

/-- The body of the `try` block after a successful `json.loads` producing
`data` (source lines 29–74): `data['server_time']` assignment works only on a
dict; display-time computation; field extraction with defaults; color-coded
console rendering; file append; 200 response. -/
def eventSink (env : PostEnv) (data : Json) (file : String) : HandlerResult :=
  match data with
  | .obj kvs =>
    let data1 := dictInsert kvs "server_time" (.str (isoformat env.nowIso))
    let ts := dictGet data1 "timestamp" (.num 0)
    match displayTime env ts with
    | none =>
      -- `timestamp / 1000` raised `TypeError` (or `fromtimestamp` raised)
      if jsonAsNum ts = none then ⟨.unhandled .typeError, file, []⟩
      else ⟨.unhandled .overflowError, file, []⟩
    | some timeStr =>
      let location := dictGet data1 "location" (.str "unknown")
      let message := dictGet data1 "message" (.str "")
      let logData := dictGet data1 "data" (.obj [])
      let hypothesis := dictGet data1 "hypothesisId" (.str "")
      match message with
      | .str msg =>
        let color := selectColor msg logData
        let headerOut : List ConsoleOut :=
          [.header color timeStr hypothesis location, .msgLine msg]
        if pyTruthy logData then
          match logData with
          | .obj dkvs =>
            let console := headerOut ++ dkvs.map (fun p => ConsoleOut.dataLine p.1 p.2)
              ++ [.blankLine]
            ⟨.ok200 "application/json" "\x7b\"status\":\"ok\"\x7d",
             file ++ jsonDumps (.obj data1) ++ "\n", console⟩
          | _ =>
            -- `log_data.items()` on a truthy non-dict: `AttributeError`
            ⟨.unhandled .attributeError, file, []⟩
        else
          ⟨.ok200 "application/json" "\x7b\"status\":\"ok\"\x7d",
           file ++ jsonDumps (.obj data1) ++ "\n", headerOut ++ [.blankLine]⟩
      | _ =>
        -- `message.upper()` on a non-string: `AttributeError`
        ⟨.unhandled .attributeError, file, []⟩
  | _ =>
    -- `data['server_time'] = …` on a non-dict: `TypeError`, which
    -- `except json.JSONDecodeError` does not catch
    ⟨.unhandled .typeError, file, []⟩

/-- `LogHandler.do_POST` (source lines 23–80).  `header` is the raw
`Content-Length` header (absent ⇒ default `0`), `stream` the request-body
byte stream from which `Content-Length` bytes are read. -/
def handlePost (header : Option String) (stream : List Nat) (env : PostEnv)
    (file : String) : HandlerResult :=
  match contentLengthOf header with
  | none => ⟨.unhandled .valueError, file, []⟩
  | some len =>
    let body := stream.take len.toNat
    match utf8Decode body with
    | none => ⟨.unhandled .unicodeDecodeError, file, []⟩
    | some text =>
      match jsonLoads (String.mk text) with
      | none => ⟨.err400, file, [.decodeErr, .bodyDump (body.take 200)]⟩
      | some data => eventSink env data file

/-- `LogHandler.do_GET` (source lines 82–87): fixed 200 health-check reply,
no log-file access. -/
def handleGet (file : String) : HandlerResult :=
  ⟨.ok200 "text/plain" "Debug log server running\n", file, []⟩

/-- One incoming HTTP request; a POST carries its wall-clock environment. -/
inductive Request where
  | get
  | post (header : Option String) (stream : List Nat) (env : PostEnv)

/-- Effect of one handled request on the log file. -/
def serverStep (file : String) : Request → String
  | .get => (handleGet file).file
  | .post h s e => (handlePost h s e file).file

/-- Sequential handling of a list of requests, threading the log file. -/
def runRequests : String → List Request → String
  | file, [] => file
  | file, r :: rs => runRequests (serverStep file r) rs

/-- The `data`-section console lines: one per entry of a dict payload. -/
def dataConsole : Json → List ConsoleOut
  | .obj dkvs => dkvs.map (fun p => ConsoleOut.dataLine p.1 p.2)
  | _ => []

/-- The fixed 200-response body string. -/
def okBody : String := "\x7b\"status\":\"ok\"\x7d"

/-- The enriched record written on the success path. -/
def enrich (env : PostEnv) (kvs : List (String × Json)) : List (String × Json) :=
  dictInsert kvs "server_time" (Json.str (isoformat env.nowIso))

/-- The continuation after a serialized number must not extend the numeral. -/
def numOkB : List Char → Bool
  | [] => true
  | c :: _ => !(isDig c || c = '.' || c = 'e' || c = 'E')

mutual
/-- A fuel bound sufficient for `parseValue` on the serialization of `j`. -/
def needJ : Json → Nat
  | .null => 1
  | .bool _ => 1
  | .num _ => 1
  | .str _ => 1
  | .arr [] => 1
  | .arr (v :: t) => 1 + Nat.max (needJ v) (needArr t)
  | .obj [] => 1
  | .obj ((_, v) :: t) => 1 + Nat.max (1 + needJ v) (needObj t)

/-- Fuel bound for `parseArrRest` on remaining serialized elements. -/
def needArr : List Json → Nat
  | [] => 1
  | v :: t => 1 + Nat.max (needJ v) (needArr t)

/-- Fuel bound for `parseObjRest` on remaining serialized members. -/
def needObj : List (String × Json) → Nat
  | [] => 1
  | (_, v) :: t => 1 + Nat.max (1 + needJ v) (needObj t)
end

/-- Split a character list into newline-terminated lines (a trailing segment
without a newline also counts as a line). -/
def splitNl : List Char → List (List Char)
  | [] => []
  | c :: cs =>
    if c = '\n' then [] :: splitNl cs
    else
      match splitNl cs with
      | [] => [[c]]
      | l :: ls => (c :: l) :: ls

/-- A log file that is a concatenation of complete, newline-terminated,
individually parseable lines. -/
def goodFile (file : String) : Prop :=
  ∃ ls : List (List Char), file.toList = ls.flatMap (fun l => l ++ ['\n']) ∧
    ∀ l ∈ ls, (∀ x ∈ l, ¬ x = '\n') ∧ ∃ j, jsonLoads (String.mk l) = some j

/-- A fixed wall-clock instant used to instantiate handler runs. -/
def dtW : PyDateTime := ⟨2024, 6, 1, 12, 30, 5, 123456⟩

/-- An environment whose `fromtimestamp` never succeeds (never reached in the
runs it is used for). -/
def envW : PostEnv := ⟨dtW, dtW, fun _ => none⟩

/-- An environment whose `fromtimestamp` always yields the fixed instant. -/
def envT : PostEnv := ⟨dtW, dtW, fun _ => some dtW⟩

section DictLemmas

theorem dictGet_dictInsert_self (d : List (String × Json)) (k : String) (v dflt : Json) :
    dictGet (dictInsert d k v) k dflt = v := by
  induction d with
  | nil => simp [dictInsert, dictGet]
  | cons h t ih =>
    obtain ⟨k', v'⟩ := h
    by_cases hk : k' = k <;> simp [dictInsert, dictGet, hk, ih]

theorem dictKeys_cons (k : String) (v : Json) (t : List (String × Json)) :
    dictKeys ((k, v) :: t) = k :: dictKeys t := rfl

theorem dictGet_dictInsert_ne (d : List (String × Json)) (k k' : String) (v dflt : Json)
    (h : k' ≠ k) : dictGet (dictInsert d k' v) k dflt = dictGet d k dflt := by
  induction d with
  | nil => simp [dictInsert, dictGet, h]
  | cons hd t ih =>
    obtain ⟨k'', v''⟩ := hd
    by_cases hk : k'' = k'
    · subst hk
      simp [dictInsert, dictGet, h]
    · simp [dictInsert, dictGet, hk, ih]

theorem dictKeys_dictInsert_mem (d : List (String × Json)) (k : String) (v : Json)
    (h : k ∈ dictKeys d) : dictKeys (dictInsert d k v) = dictKeys d := by
  induction d with
  | nil => simp [dictKeys] at h
  | cons hd t ih =>
    obtain ⟨k', v'⟩ := hd
    by_cases hk : k' = k
    · simp [dictInsert, dictKeys_cons, hk]
    · rw [dictKeys_cons] at h
      rcases List.mem_cons.mp h with h1 | h2
      · exact absurd h1.symm hk
      · simp [dictInsert, dictKeys_cons, hk, ih h2]

theorem dictKeys_dictInsert_not_mem (d : List (String × Json)) (k : String) (v : Json)
    (h : ¬ k ∈ dictKeys d) : dictKeys (dictInsert d k v) = dictKeys d ++ [k] := by
  induction d with
  | nil => simp [dictInsert, dictKeys]
  | cons hd t ih =>
    obtain ⟨k', v'⟩ := hd
    rw [dictKeys_cons] at h
    have h1 : k' ≠ k := fun e => h (e ▸ List.mem_cons_self _ _)
    have h2 : ¬ k ∈ dictKeys t := fun e => h (List.mem_cons_of_mem _ e)
    simp [dictInsert, dictKeys_cons, h1, ih h2]

theorem dictInsert_eq_append (d : List (String × Json)) (k : String) (v : Json)
    (h : ¬ k ∈ dictKeys d) : dictInsert d k v = d ++ [(k, v)] := by
  induction d with
  | nil => simp [dictInsert]
  | cons hd t ih =>
    obtain ⟨k', v'⟩ := hd
    rw [dictKeys_cons] at h
    have h1 : k' ≠ k := fun e => h (e ▸ List.mem_cons_self _ _)
    have h2 : ¬ k ∈ dictKeys t := fun e => h (List.mem_cons_of_mem _ e)
    simp [dictInsert, h1, ih h2]

end DictLemmas

theorem dataConsole_of_falsy (j : Json) (h : pyTruthy j = false) : dataConsole j = [] := by
  cases j with
  | obj m =>
    simp [pyTruthy] at h
    simp [dataConsole, h]
  | _ => rfl

/-- Success path of the Event Sink: with a string (or absent) `message`, a
workable `timestamp`, and a falsy-or-dict `data`, the sink renders the
event and appends exactly the enriched record as one JSON line. -/
theorem eventSink_ok (env : PostEnv) (kvs : List (String × Json)) (file : String)
    (msg timeStr : String)
    (hmsg : dictGet kvs "message" (Json.str "") = Json.str msg)
    (htime : displayTime env (dictGet kvs "timestamp" (Json.num 0)) = some timeStr)
    (hdata : pyTruthy (dictGet kvs "data" (Json.obj [])) = false ∨
             ∃ dkvs, dictGet kvs "data" (Json.obj []) = Json.obj dkvs) :
    eventSink env (Json.obj kvs) file =
      ⟨Response.ok200 "application/json" okBody,
       file ++ jsonDumps (Json.obj (enrich env kvs)) ++ "\n",
       ConsoleOut.header (selectColor msg (dictGet kvs "data" (Json.obj [])))
           timeStr (dictGet kvs "hypothesisId" (Json.str ""))
           (dictGet kvs "location" (Json.str "unknown"))
         :: ConsoleOut.msgLine msg
         :: (dataConsole (dictGet kvs "data" (Json.obj [])) ++ [ConsoleOut.blankLine])⟩ := by
  have e1 : dictGet (dictInsert kvs "server_time" (Json.str (isoformat env.nowIso)))
        "timestamp" (Json.num 0)
      = dictGet kvs "timestamp" (Json.num 0) := dictGet_dictInsert_ne _ _ _ _ _ (by decide)
  have e2 : dictGet (dictInsert kvs "server_time" (Json.str (isoformat env.nowIso)))
        "location" (Json.str "unknown")
      = dictGet kvs "location" (Json.str "unknown") := dictGet_dictInsert_ne _ _ _ _ _ (by decide)
  have e3 : dictGet (dictInsert kvs "server_time" (Json.str (isoformat env.nowIso)))
        "message" (Json.str "")
      = dictGet kvs "message" (Json.str "") := dictGet_dictInsert_ne _ _ _ _ _ (by decide)
  have e4 : dictGet (dictInsert kvs "server_time" (Json.str (isoformat env.nowIso)))
        "data" (Json.obj [])
      = dictGet kvs "data" (Json.obj []) := dictGet_dictInsert_ne _ _ _ _ _ (by decide)
  have e5 : dictGet (dictInsert kvs "server_time" (Json.str (isoformat env.nowIso)))
        "hypothesisId" (Json.str "")
      = dictGet kvs "hypothesisId" (Json.str "") := dictGet_dictInsert_ne _ _ _ _ _ (by decide)
  simp only [eventSink, enrich, e1, e2, e3, e4, e5, htime, hmsg, okBody]
  rcases hdata with hfal | ⟨dkvs, hobj⟩
  · rw [hfal, dataConsole_of_falsy _ hfal]
    simp
  · rw [hobj]
    cases ht : pyTruthy (Json.obj dkvs)
    · rw [dataConsole_of_falsy _ ht]
      simp
    · simp [ht, dataConsole]

/-- Success path of `do_POST`: body read, UTF-8 decoded, parsed to an object,
and the sink completes. -/
theorem handlePost_ok (header : Option String) (stream : List Nat) (env : PostEnv)
    (file : String) (len : Int) (text : List Char) (kvs : List (String × Json))
    (msg timeStr : String)
    (hlen : contentLengthOf header = some len)
    (hdec : utf8Decode (stream.take len.toNat) = some text)
    (hparse : jsonLoads (String.mk text) = some (Json.obj kvs))
    (hmsg : dictGet kvs "message" (Json.str "") = Json.str msg)
    (htime : displayTime env (dictGet kvs "timestamp" (Json.num 0)) = some timeStr)
    (hdata : pyTruthy (dictGet kvs "data" (Json.obj [])) = false ∨
             ∃ dkvs, dictGet kvs "data" (Json.obj []) = Json.obj dkvs) :
    handlePost header stream env file =
      ⟨Response.ok200 "application/json" okBody,
       file ++ jsonDumps (Json.obj (enrich env kvs)) ++ "\n",
       ConsoleOut.header (selectColor msg (dictGet kvs "data" (Json.obj [])))
           timeStr (dictGet kvs "hypothesisId" (Json.str ""))
           (dictGet kvs "location" (Json.str "unknown"))
         :: ConsoleOut.msgLine msg
         :: (dataConsole (dictGet kvs "data" (Json.obj [])) ++ [ConsoleOut.blankLine])⟩ := by
  simp only [handlePost, hlen, hdec, hparse]
  exact eventSink_ok env kvs file msg timeStr hmsg htime hdata

/-- The sink either leaves the file untouched (an exception path) or appends
exactly the serialized enriched record plus a newline. -/
theorem eventSink_file_cases (env : PostEnv) (data : Json) (f : String) :
    (eventSink env data f).file = f ∨
    ∃ kvs, data = Json.obj kvs ∧
      (eventSink env data f).file = f ++ jsonDumps (Json.obj (enrich env kvs)) ++ "\n" := by
  unfold eventSink
  cases data with
  | obj kvs =>
    simp only
    repeat' split
    all_goals first
      | (left; rfl)
      | (right; exact ⟨kvs, rfl, rfl⟩)
  | null => left; rfl
  | bool b => left; rfl
  | num n => left; rfl
  | str s => left; rfl
  | arr l => left; rfl

/-- `do_POST` either leaves the file untouched or appends exactly one
serialized enriched record (derived from a successful `json.loads`). -/
theorem handlePost_file_cases (h : Option String) (s : List Nat) (env : PostEnv)
    (f : String) :
    (handlePost h s env f).file = f ∨
    ∃ len text kvs, contentLengthOf h = some len ∧
      utf8Decode (s.take len.toNat) = some text ∧
      jsonLoads (String.mk text) = some (Json.obj kvs) ∧
      (handlePost h s env f).file = f ++ jsonDumps (Json.obj (enrich env kvs)) ++ "\n" := by
  cases hcl : contentLengthOf h with
  | none => left; simp [handlePost, hcl]
  | some len =>
    cases hdec : utf8Decode (s.take len.toNat) with
    | none => left; simp [handlePost, hcl, hdec]
    | some text =>
      cases hparse : jsonLoads (String.mk text) with
      | none => left; simp [handlePost, hcl, hdec, hparse]
      | some data =>
        have hred : handlePost h s env f = eventSink env data f := by
          simp only [handlePost, hcl, hdec, hparse]
        rcases eventSink_file_cases env data f with hL | ⟨kvs, hdata, hR⟩
        · left; rw [hred]; exact hL
        · right
          exact ⟨len, text, kvs, rfl, hdec, by rw [← hdata]; exact hparse,
            by rw [hred]; exact hR⟩

section FormatLemmas

theorem isDig_decDigitChar (d : Nat) (h : d < 10) : isDig (decDigitChar d) = true := by
  interval_cases d <;> decide

theorem natDigitsAux_digits (n : Nat) (acc : List Char)
    (hacc : ∀ c ∈ acc, isDig c = true) : ∀ c ∈ natDigitsAux n acc, isDig c = true := by
  induction n using Nat.strong_induction_on generalizing acc with
  | _ n ih =>
    match n with
    | 0 => simpa [natDigitsAux] using hacc
    | m + 1 =>
      rw [natDigitsAux]
      exact ih ((m + 1) / 10) (Nat.div_lt_self (Nat.succ_pos m) (by norm_num)) _
        (by
          intro c hc
          rcases List.mem_cons.mp hc with h1 | h2
          · exact h1 ▸ isDig_decDigitChar _ (Nat.mod_lt _ (by norm_num))
          · exact hacc c h2)

theorem natDigits_digits (n : Nat) : ∀ c ∈ natDigits n, isDig c = true := by
  unfold natDigits
  split
  · intro c hc
    simp at hc
    simp [hc, isDig]
  · exact natDigitsAux_digits n [] (by simp)

theorem padDec_length (w n : Nat) (h : n < 10 ^ w) : (padDec w n).length = w := by
  simp [padDec, h]

theorem padDec_digits (w n : Nat) : ∀ c ∈ padDec w n, isDig c = true := by
  unfold padDec
  split
  · intro c hc
    simp only [List.mem_map] at hc
    obtain ⟨i, _, rfl⟩ := hc
    exact isDig_decDigitChar _ (Nat.mod_lt _ (by norm_num))
  · exact natDigits_digits n

theorem matchShape_digits_append (l : List Char) (ps cs : List Char)
    (hd : ∀ c ∈ l, isDig c = true) (h : matchShape ps cs = true) :
    matchShape (List.replicate l.length 'D' ++ ps) (l ++ cs) = true := by
  induction l with
  | nil => simpa using h
  | cons c t ih =>
    have hc := hd c (List.mem_cons_self _ _)
    have ht := ih (fun x hx => hd x (List.mem_cons_of_mem _ hx))
    simp only [List.length_cons, List.replicate_succ, List.cons_append, matchShape]
    simp [hc, ht]

theorem matchShape_pad (w n : Nat) (ps cs : List Char) (hn : n < 10 ^ w)
    (h : matchShape ps cs = true) :
    matchShape (List.replicate w 'D' ++ ps) (padDec w n ++ cs) = true := by
  have := matchShape_digits_append (padDec w n) ps cs (padDec_digits w n) h
  rwa [padDec_length w n hn] at this

theorem matchShape_lit (p : Char) (ps cs : List Char) (hp : ¬ p = 'D')
    (h : matchShape ps cs = true) : matchShape (p :: ps) (p :: cs) = true := by
  simp [matchShape, hp, h]

/-- `datetime.isoformat()` output is a valid ISO-8601 timestamp. -/
theorem isISO8601_isoformat (dt : PyDateTime) (h : dt.valid) :
    isISO8601 (isoformat dt) = true := by
  obtain ⟨hy, hmo, hd, hh, hmi, hs, hu⟩ := h
  have hy' : dt.year < 10 ^ 4 := by omega
  have hmo' : dt.month < 10 ^ 2 := by omega
  have hd' : dt.day < 10 ^ 2 := by omega
  have hh' : dt.hour < 10 ^ 2 := by omega
  have hmi' : dt.minute < 10 ^ 2 := by omega
  have hs' : dt.second < 10 ^ 2 := by omega
  have hu' : dt.microsecond < 10 ^ 6 := by omega
  unfold isISO8601 isoformat
  by_cases hz : dt.microsecond = 0
  · apply Bool.or_eq_true_iff.mpr
    left
    rw [show ("DDDD-DD-DDTDD:DD:DD".toList : List Char)
        = List.replicate 4 'D' ++ '-' :: (List.replicate 2 'D' ++ '-' ::
          (List.replicate 2 'D' ++ 'T' :: (List.replicate 2 'D' ++ ':' ::
          (List.replicate 2 'D' ++ ':' :: (List.replicate 2 'D' ++ []))))) from rfl]
    rw [show (String.mk (padDec 4 dt.year ++ '-' :: padDec 2 dt.month ++ '-' :: padDec 2 dt.day
        ++ 'T' :: padDec 2 dt.hour ++ ':' :: padDec 2 dt.minute ++ ':' :: padDec 2 dt.second
        ++ (if dt.microsecond = 0 then [] else '.' :: padDec 6 dt.microsecond))).toList
        = padDec 4 dt.year ++ '-' :: (padDec 2 dt.month ++ '-' :: (padDec 2 dt.day
        ++ 'T' :: (padDec 2 dt.hour ++ ':' :: (padDec 2 dt.minute ++ ':' :: (padDec 2 dt.second
        ++ (if dt.microsecond = 0 then [] else '.' :: padDec 6 dt.microsecond))))))
      from by simp]
    rw [hz]
    simp only [if_pos rfl]
    apply matchShape_pad _ _ _ _ hy'
    apply matchShape_lit _ _ _ (by decide)
    apply matchShape_pad _ _ _ _ hmo'
    apply matchShape_lit _ _ _ (by decide)
    apply matchShape_pad _ _ _ _ hd'
    apply matchShape_lit _ _ _ (by decide)
    apply matchShape_pad _ _ _ _ hh'
    apply matchShape_lit _ _ _ (by decide)
    apply matchShape_pad _ _ _ _ hmi'
    apply matchShape_lit _ _ _ (by decide)
    apply matchShape_pad _ _ _ _ hs'
    rfl
  · apply Bool.or_eq_true_iff.mpr
    right
    rw [show ("DDDD-DD-DDTDD:DD:DD.DDDDDD".toList : List Char)
        = List.replicate 4 'D' ++ '-' :: (List.replicate 2 'D' ++ '-' ::
          (List.replicate 2 'D' ++ 'T' :: (List.replicate 2 'D' ++ ':' ::
          (List.replicate 2 'D' ++ ':' :: (List.replicate 2 'D' ++ '.' ::
          (List.replicate 6 'D' ++ [])))))) from rfl]
    rw [show (String.mk (padDec 4 dt.year ++ '-' :: padDec 2 dt.month ++ '-' :: padDec 2 dt.day
        ++ 'T' :: padDec 2 dt.hour ++ ':' :: padDec 2 dt.minute ++ ':' :: padDec 2 dt.second
        ++ (if dt.microsecond = 0 then [] else '.' :: padDec 6 dt.microsecond))).toList
        = padDec 4 dt.year ++ '-' :: (padDec 2 dt.month ++ '-' :: (padDec 2 dt.day
        ++ 'T' :: (padDec 2 dt.hour ++ ':' :: (padDec 2 dt.minute ++ ':' :: (padDec 2 dt.second
        ++ (if dt.microsecond = 0 then [] else '.' :: padDec 6 dt.microsecond))))))
      from by simp]
    simp only [if_neg hz]
    apply matchShape_pad _ _ _ _ hy'
    apply matchShape_lit _ _ _ (by decide)
    apply matchShape_pad _ _ _ _ hmo'
    apply matchShape_lit _ _ _ (by decide)
    apply matchShape_pad _ _ _ _ hd'
    apply matchShape_lit _ _ _ (by decide)
    apply matchShape_pad _ _ _ _ hh'
    apply matchShape_lit _ _ _ (by decide)
    apply matchShape_pad _ _ _ _ hmi'
    apply matchShape_lit _ _ _ (by decide)
    apply matchShape_pad _ _ _ _ hs'
    apply matchShape_lit _ _ _ (by decide)
    have := matchShape_pad 6 dt.microsecond [] [] hu' (by rfl)
    simpa using this

theorem toList_mk (l : List Char) : (String.mk l).toList = l := rfl

theorem dropLast3_append (l1 l2 : List Char) (h : l2.length = 6) :
    (l1 ++ l2).take ((l1 ++ l2).length - 3) = l1 ++ l2.take 3 := by
  have he : (l1 ++ l2).length - 3 = l1.length + 3 := by
    simp [h]
  rw [he, List.take_append]

/-- The display string is `HH:MM:SS.` followed by the first three digits of
the six-digit microsecond field. -/
theorem pyTimeStr_eq (dt : PyDateTime) (hu : dt.microsecond < 1000000) :
    pyTimeStr dt = String.mk (padDec 2 dt.hour ++ ':' :: padDec 2 dt.minute
      ++ ':' :: padDec 2 dt.second ++ '.' :: (padDec 6 dt.microsecond).take 3) := by
  have h6 : (padDec 6 dt.microsecond).length = 6 := padDec_length _ _ (by norm_num; omega)
  unfold pyTimeStr pyDropLast3 strftimeHMSf
  rw [toList_mk]
  congr 1
  have hres : padDec 2 dt.hour ++ ':' :: padDec 2 dt.minute ++ ':' :: padDec 2 dt.second
        ++ '.' :: padDec 6 dt.microsecond
      = (padDec 2 dt.hour ++ ':' :: padDec 2 dt.minute ++ ':' :: padDec 2 dt.second ++ ['.'])
        ++ padDec 6 dt.microsecond := by simp
  rw [hres, dropLast3_append _ _ h6]
  simp

/-- The first three digits of the six-digit microsecond field are the
zero-padded milliseconds. -/
theorem padDec_six_take_three (u : Nat) (h : u < 1000000) :
    (padDec 6 u).take 3 = padDec 3 (u / 1000) := by
  have h1 : u < 10 ^ 6 := by norm_num; omega
  have h3 : u / 1000 < 10 ^ 3 := by norm_num; omega
  simp only [padDec, if_pos h1, if_pos h3]
  rw [show (List.range 6).reverse = [5, 4, 3, 2, 1, 0] from rfl,
      show (List.range 3).reverse = [2, 1, 0] from rfl]
  simp only [List.map_cons, List.map_nil, List.take_cons, List.take_nil]
  norm_num
  refine ⟨?_, ?_⟩ <;> (congr 1; omega)

end FormatLemmas

section NumberRoundtrip

theorem digitsVal_go (a : Nat) (l : List Char) :
    l.foldl (fun a c => a * 10 + (c.toNat - 48)) a = a * 10 ^ l.length + digitsVal l := by
  induction l generalizing a with
  | nil => simp [digitsVal]
  | cons c t ih =>
    have hv : digitsVal (c :: t) = (c.toNat - 48) * 10 ^ t.length + digitsVal t := by
      show List.foldl _ 0 (c :: t) = _
      rw [List.foldl_cons, ih]
      ring_nf
    rw [List.foldl_cons, ih, hv]
    simp only [List.length_cons]
    ring

theorem digitsVal_append (l1 l2 : List Char) :
    digitsVal (l1 ++ l2) = digitsVal l1 * 10 ^ l2.length + digitsVal l2 := by
  show (l1 ++ l2).foldl _ 0 = _
  rw [List.foldl_append, digitsVal_go]
  rfl

theorem toNat_decDigitChar (d : Nat) (h : d < 10) : (decDigitChar d).toNat = 48 + d := by
  interval_cases d <;> rfl

theorem natDigitsAux_acc (n : Nat) (acc : List Char) :
    natDigitsAux n acc = natDigitsAux n [] ++ acc := by
  induction n using Nat.strong_induction_on generalizing acc with
  | _ n ih =>
    match n with
    | 0 => simp [natDigitsAux]
    | m + 1 =>
      rw [natDigitsAux, natDigitsAux]
      have hlt : (m + 1) / 10 < m + 1 := Nat.div_lt_self (Nat.succ_pos m) (by norm_num)
      rw [ih _ hlt (decDigitChar ((m + 1) % 10) :: acc), ih _ hlt [decDigitChar ((m + 1) % 10)]]
      simp

theorem digitsVal_natDigitsAux (n : Nat) : digitsVal (natDigitsAux n []) = n := by
  induction n using Nat.strong_induction_on with
  | _ n ih =>
    match n with
    | 0 => simp [natDigitsAux, digitsVal]
    | m + 1 =>
      rw [natDigitsAux, natDigitsAux_acc]
      have hlt : (m + 1) / 10 < m + 1 := Nat.div_lt_self (Nat.succ_pos m) (by norm_num)
      rw [digitsVal_append, ih _ hlt]
      have hd : digitsVal [decDigitChar ((m + 1) % 10)] = (m + 1) % 10 := by
        show digitsVal [decDigitChar ((m + 1) % 10)] = _
        simp [digitsVal, toNat_decDigitChar _ (Nat.mod_lt _ (by norm_num))]
      rw [hd]
      simp only [List.length_singleton, pow_one]
      omega

theorem digitsVal_natDigits (n : Nat) : digitsVal (natDigits n) = n := by
  unfold natDigits
  split
  · simp_all [digitsVal]
  · exact digitsVal_natDigitsAux n

theorem natDigitsAux_head (n : Nat) (h : 0 < n) :
    ∃ c t, natDigitsAux n [] = c :: t ∧ ¬ c = '0' := by
  induction n using Nat.strong_induction_on with
  | _ n ih =>
    match n, h with
    | m + 1, _ =>
      rw [natDigitsAux, natDigitsAux_acc]
      by_cases hz : (m + 1) / 10 = 0
      · have hm : m + 1 < 10 := by omega
        have h9 : (m + 1) % 10 = m + 1 := Nat.mod_eq_of_lt hm
        refine ⟨decDigitChar ((m + 1) % 10), [], by simp [hz, natDigitsAux], ?_⟩
        intro e
        have he := congrArg Char.toNat e
        rw [toNat_decDigitChar _ (Nat.mod_lt _ (by norm_num)),
          show ('0' : Char).toNat = 48 from rfl] at he
        omega
      · have hlt : (m + 1) / 10 < m + 1 := Nat.div_lt_self (Nat.succ_pos m) (by norm_num)
        obtain ⟨c, t, he, hc⟩ := ih _ hlt (Nat.pos_of_ne_zero hz)
        exact ⟨c, t ++ [decDigitChar ((m + 1) % 10)], by rw [he]; rfl, hc⟩

theorem natDigits_ne_nil (n : Nat) : natDigits n ≠ [] := by
  unfold natDigits
  split
  · simp
  · rename_i h
    rw [natDigitsAux_acc]
    intro he
    match n, h with
    | m + 1, _ =>
      rw [natDigitsAux, natDigitsAux_acc] at he
      simp at he

theorem takeWhile_all_append (p : Char → Bool) (l1 l2 : List Char)
    (h1 : ∀ c ∈ l1, p c = true) (h2 : ∀ c, l2.head? = some c → p c = false) :
    (l1 ++ l2).takeWhile p = l1 ∧ (l1 ++ l2).dropWhile p = l2 := by
  induction l1 with
  | nil =>
    cases l2 with
    | nil => simp
    | cons c t =>
      have := h2 c rfl
      simp [List.takeWhile, List.dropWhile, this]
  | cons c t ih =>
    have hc := h1 c (List.mem_cons_self _ _)
    have := ih (fun x hx => h1 x (List.mem_cons_of_mem _ hx))
    simp [List.takeWhile, List.dropWhile, hc, this.1, this.2]

theorem numOkB_head (r : Char) (rt : List Char) (h : numOkB (r :: rt) = true) :
    isDig r = false ∧ ¬ r = '.' ∧ ¬ r = 'e' ∧ ¬ r = 'E' := by
  simp [numOkB] at h
  tauto

theorem parseNatNum_natDigits (n : Nat) (rest : List Char) (hrest : numOkB rest = true) :
    parseNatNum (natDigits n ++ rest) = some (n, rest) := by
  obtain ⟨c, t, hct⟩ := List.exists_cons_of_ne_nil (natDigits_ne_nil n)
  have hdig : ∀ x ∈ natDigits n, isDig x = true := natDigits_digits n
  have hhead : ∀ x, rest.head? = some x → isDig x = false := by
    intro x hx
    cases rest with
    | nil => simp at hx
    | cons r rt =>
      simp at hx
      subst hx
      exact (numOkB_head _ _ hrest).1
  have htw := takeWhile_all_append isDig (natDigits n) rest hdig hhead
  have hc : isDig c = true := hdig c (by rw [hct]; exact List.mem_cons_self _ _)
  rw [hct]
  show parseNatNum (c :: (t ++ rest)) = _
  unfold parseNatNum
  simp only [hc, if_true]
  rw [show c :: (t ++ rest) = natDigits n ++ rest from by rw [hct]; rfl]
  rw [htw.1, htw.2]
  have hlz : (decide (1 < (natDigits n).length) && (natDigits n).head? = some '0') = false := by
    by_cases hn : n = 0
    · subst hn
      simp [natDigits]
    · unfold natDigits
      rw [if_neg hn]
      obtain ⟨c', t', he, hc'⟩ := natDigitsAux_head n (Nat.pos_of_ne_zero hn)
      rw [he]
      simp [hc']
  rw [hlz]
  simp only [Bool.false_eq_true, if_false]
  cases rest with
  | nil => simp [digitsVal_natDigits]
  | cons r rt =>
    obtain ⟨h1, h2, h3, h4⟩ := numOkB_head r rt hrest
    simp [h2, h3, h4, digitsVal_natDigits]

theorem head_not_minus_of_digit (l : List Char) (rest : List Char)
    (h : ∀ c ∈ l, isDig c = true) (hne : l ≠ []) :
    (l ++ rest).head? = some '-' → False := by
  obtain ⟨c, t, hct⟩ := List.exists_cons_of_ne_nil hne
  subst hct
  intro he
  simp at he
  have := h c (List.mem_cons_self _ _)
  rw [he] at this
  exact absurd this (by decide)

theorem parseNum_intDigits (n : Int) (rest : List Char) (hrest : numOkB rest = true) :
    parseNum (intDigits n ++ rest) = some (Json.num n, rest) := by
  by_cases hn : n < 0
  · rw [show intDigits n = '-' :: natDigits n.natAbs from by unfold intDigits; rw [if_pos hn]]
    show parseNum ('-' :: (natDigits n.natAbs ++ rest)) = _
    unfold parseNum
    rw [if_pos (by simp)]
    simp only [List.tail_cons]
    rw [parseNatNum_natDigits _ _ hrest]
    dsimp only
    rw [show -((n.natAbs : Nat) : Int) = n from by omega]
  · rw [show intDigits n = natDigits n.toNat from by unfold intDigits; rw [if_neg hn]]
    unfold parseNum
    rw [if_neg (head_not_minus_of_digit _ rest (natDigits_digits _) (natDigits_ne_nil _))]
    rw [parseNatNum_natDigits _ _ hrest]
    dsimp only
    rw [show ((n.toNat : Nat) : Int) = n from by omega]

end NumberRoundtrip

section StringRoundtrip

theorem hexVal_hexDigitChar : ∀ d < 16, hexVal (hexDigitChar d) = some d := by decide

theorem char_valid_bounds (c : Char) :
    c.toNat < 55296 ∨ (57343 < c.toNat ∧ c.toNat < 1114112) := by
  have := c.valid
  rcases this with h | ⟨h1, h2⟩
  · left; exact h
  · right; exact ⟨h1, h2⟩

theorem hex4At_hex4 (n : Nat) (cs : List Char) (h : n < 65536) :
    hex4At (hex4 n ++ cs) = some (n, cs) := by
  have h1 := hexVal_hexDigitChar (n / 4096 % 16) (Nat.mod_lt _ (by norm_num))
  have h2 := hexVal_hexDigitChar (n / 256 % 16) (Nat.mod_lt _ (by norm_num))
  have h3 := hexVal_hexDigitChar (n / 16 % 16) (Nat.mod_lt _ (by norm_num))
  have h4 := hexVal_hexDigitChar (n % 16) (Nat.mod_lt _ (by norm_num))
  rw [show hex4 n ++ cs = hexDigitChar (n / 4096 % 16) :: hexDigitChar (n / 256 % 16)
    :: hexDigitChar (n / 16 % 16) :: hexDigitChar (n % 16) :: cs from rfl]
  rw [hex4At, h1, h2, h3, h4]
  show some (n / 4096 % 16 * 4096 + n / 256 % 16 * 256 + n / 16 % 16 * 16 + n % 16, cs)
    = some (n, cs)
  rw [show n / 4096 % 16 * 4096 + n / 256 % 16 * 256 + n / 16 % 16 * 16 + n % 16 = n from by
    omega]

theorem parseStr_cons_plain (fuel : Nat) (c : Char) (cs : List Char) (h1 : ¬ c = '"')
    (h2 : ¬ c = '\\') (h3 : ¬ c.toNat < 32) :
    parseStr (fuel + 1) (c :: cs) = (parseStr fuel cs).map (fun p => (c :: p.1, p.2)) := by
  simp [parseStr, h1, h2, h3]

theorem parseStr_esc_simple (fuel : Nat) (e out : Char) (cs : List Char)
    (he : ¬ e = 'u') (hout : escCharOf e = some out) :
    parseStr (fuel + 1) ('\\' :: e :: cs)
      = (parseStr fuel cs).map (fun p => (out :: p.1, p.2)) := by
  simp [parseStr, he, hout]

theorem parseStr_u (fuel n : Nat) (cs : List Char) (hlt : n < 65536)
    (hsur : ¬ (55296 ≤ n ∧ n < 57344)) :
    parseStr (fuel + 1) ('\\' :: 'u' :: (hex4 n ++ cs))
      = (parseStr fuel cs).map (fun p => (Char.ofNat n :: p.1, p.2)) := by
  have hx := hex4At_hex4 n cs hlt
  have hc1 : ¬ (55296 ≤ n ∧ n < 56320) := by omega
  have hc2 : ¬ (56320 ≤ n ∧ n < 57344) := by omega
  conv_lhs => rw [parseStr]
  try dsimp only
  rw [if_neg (show ¬ ('\\' : Char) = '"' from by decide),
    if_pos (show ('\\' : Char) = '\\' from rfl),
    if_pos (show ('u' : Char) = 'u' from rfl), hx]
  dsimp only
  rw [if_neg hc1, if_neg hc2]

theorem parseStr_u_pair (fuel n : Nat) (cs : List Char) (hlo : 65536 ≤ n)
    (hhi : n < 1114112) :
    parseStr (fuel + 1) ('\\' :: 'u' :: (hex4 (55296 + (n - 65536) / 1024)
        ++ ('\\' :: 'u' :: (hex4 (56320 + (n - 65536) % 1024) ++ cs))))
      = (parseStr fuel cs).map (fun p => (Char.ofNat n :: p.1, p.2)) := by
  have hx1 := hex4At_hex4 (55296 + (n - 65536) / 1024)
    ('\\' :: 'u' :: (hex4 (56320 + (n - 65536) % 1024) ++ cs)) (by omega)
  have hx2 := hex4At_hex4 (56320 + (n - 65536) % 1024) cs (by omega)
  have hc1 : 55296 ≤ 55296 + (n - 65536) / 1024 ∧ 55296 + (n - 65536) / 1024 < 56320 := by
    omega
  have hc2 : 56320 ≤ 56320 + (n - 65536) % 1024 ∧ 56320 + (n - 65536) % 1024 < 57344 := by
    omega
  conv_lhs => rw [parseStr]
  try dsimp only
  rw [if_neg (show ¬ ('\\' : Char) = '"' from by decide),
    if_pos (show ('\\' : Char) = '\\' from rfl),
    if_pos (show ('u' : Char) = 'u' from rfl), hx1]
  dsimp only
  rw [if_pos hc1, if_pos (show ('\\' : Char) = '\\' ∧ ('u' : Char) = 'u' from ⟨rfl, rfl⟩),
    hx2]
  dsimp only
  rw [if_pos hc2]
  rw [show 65536 + (55296 + (n - 65536) / 1024 - 55296) * 1024
      + (56320 + (n - 65536) % 1024 - 56320) = n from by omega]

theorem escJChar_ne_nil (c : Char) : escJChar c ≠ [] := by
  unfold escJChar
  repeat' split
  all_goals simp

theorem length_le_escJ (s : List Char) : s.length ≤ (s.flatMap escJChar).length := by
  induction s with
  | nil => simp
  | cons c t ih =>
    rw [List.flatMap_cons, List.length_append]
    have := List.length_pos.mpr (escJChar_ne_nil c)
    simp only [List.length_cons]
    omega

/-- Round trip for serialized strings: parsing the escaped body plus closing
quote recovers the characters exactly. -/
theorem parseStr_escJ (s : List Char) (rest : List Char) :
    ∀ fuel, s.length + 1 ≤ fuel →
      parseStr fuel (s.flatMap escJChar ++ '"' :: rest) = some (s, rest) := by
  induction s with
  | nil =>
    intro fuel hf
    match fuel, hf with
    | f + 1, _ => simp [parseStr]
  | cons c t ih =>
    intro fuel hf
    match fuel, hf with
    | f + 1, hf2 =>
      have hft : t.length + 1 ≤ f := by
        have hl := hf2
        simp only [List.length_cons] at hl
        omega
      have iht := ih f hft
      rw [List.flatMap_cons, List.append_assoc]
      by_cases h1 : c = '"'
      · subst h1
        rw [show escJChar '"' ++ (t.flatMap escJChar ++ '"' :: rest)
          = '\\' :: '"' :: (t.flatMap escJChar ++ '"' :: rest) from rfl]
        rw [parseStr_esc_simple f '"' '"' _ (by decide) rfl]
        simp [iht]
      · by_cases h2 : c = '\\'
        · subst h2
          rw [show escJChar '\\' ++ (t.flatMap escJChar ++ '"' :: rest)
            = '\\' :: '\\' :: (t.flatMap escJChar ++ '"' :: rest) from rfl]
          rw [parseStr_esc_simple f '\\' '\\' _ (by decide) rfl]
          simp [iht]
        · by_cases h3 : c = '\n'
          · subst h3
            rw [show escJChar '\n' ++ (t.flatMap escJChar ++ '"' :: rest)
              = '\\' :: 'n' :: (t.flatMap escJChar ++ '"' :: rest) from rfl]
            rw [parseStr_esc_simple f 'n' '\n' _ (by decide) rfl]
            simp [iht]
          · by_cases h4 : c = '\r'
            · subst h4
              rw [show escJChar '\r' ++ (t.flatMap escJChar ++ '"' :: rest)
                = '\\' :: 'r' :: (t.flatMap escJChar ++ '"' :: rest) from rfl]
              rw [parseStr_esc_simple f 'r' '\r' _ (by decide) rfl]
              simp [iht]
            · by_cases h5 : c = '\t'
              · subst h5
                rw [show escJChar '\t' ++ (t.flatMap escJChar ++ '"' :: rest)
                  = '\\' :: 't' :: (t.flatMap escJChar ++ '"' :: rest) from rfl]
                rw [parseStr_esc_simple f 't' '\t' _ (by decide) rfl]
                simp [iht]
              · by_cases h6 : c.toNat = 8
                · have hc8 : c = Char.ofNat 8 := by
                    rw [← h6, Char.ofNat_toNat]
                  rw [show escJChar c = ['\\', 'b'] from by
                    unfold escJChar
                    rw [if_neg h1, if_neg h2, if_neg h3, if_neg h4, if_neg h5, if_pos h6]]
                  rw [show (['\\', 'b'] : List Char) ++ (t.flatMap escJChar ++ '"' :: rest)
                    = '\\' :: 'b' :: (t.flatMap escJChar ++ '"' :: rest) from rfl]
                  rw [parseStr_esc_simple f 'b' (Char.ofNat 8) _ (by decide) rfl]
                  rw [← hc8]
                  simp [iht]
                · by_cases h7 : c.toNat = 12
                  · have hc12 : c = Char.ofNat 12 := by
                      rw [← h7, Char.ofNat_toNat]
                    rw [show escJChar c = ['\\', 'f'] from by
                      unfold escJChar
                      rw [if_neg h1, if_neg h2, if_neg h3, if_neg h4, if_neg h5, if_neg h6,
                        if_pos h7]]
                    rw [show (['\\', 'f'] : List Char) ++ (t.flatMap escJChar ++ '"' :: rest)
                      = '\\' :: 'f' :: (t.flatMap escJChar ++ '"' :: rest) from rfl]
                    rw [parseStr_esc_simple f 'f' (Char.ofNat 12) _ (by decide) rfl]
                    rw [← hc12]
                    simp [iht]
                  · by_cases h8 : c.toNat < 32
                    · rw [show escJChar c = '\\' :: 'u' :: hex4 c.toNat from by
                        unfold escJChar
                        rw [if_neg h1, if_neg h2, if_neg h3, if_neg h4, if_neg h5, if_neg h6,
                          if_neg h7, if_pos h8]]
                      rw [show ('\\' :: 'u' :: hex4 c.toNat)
                          ++ (t.flatMap escJChar ++ '"' :: rest)
                        = '\\' :: 'u' :: (hex4 c.toNat ++ (t.flatMap escJChar ++ '"' :: rest))
                        from by simp]
                      rw [parseStr_u f c.toNat _ (by omega) (by omega)]
                      simp [iht, Char.ofNat_toNat]
                    · by_cases h9 : c.toNat < 127
                      · rw [show escJChar c = [c] from by
                          unfold escJChar
                          rw [if_neg h1, if_neg h2, if_neg h3, if_neg h4, if_neg h5, if_neg h6,
                            if_neg h7, if_neg h8, if_pos h9]]
                        rw [show ([c] : List Char) ++ (t.flatMap escJChar ++ '"' :: rest)
                          = c :: (t.flatMap escJChar ++ '"' :: rest) from rfl]
                        rw [parseStr_cons_plain f c _ h1 h2 h8]
                        simp [iht]
                      · by_cases h10 : c.toNat < 65536
                        · have hsur : ¬ (55296 ≤ c.toNat ∧ c.toNat < 57344) := by
                            rcases char_valid_bounds c with hv | hv
                            · omega
                            · omega
                          rw [show escJChar c = '\\' :: 'u' :: hex4 c.toNat from by
                            unfold escJChar
                            rw [if_neg h1, if_neg h2, if_neg h3, if_neg h4, if_neg h5,
                              if_neg h6, if_neg h7, if_neg h8, if_neg h9, if_pos h10]]
                          rw [show ('\\' :: 'u' :: hex4 c.toNat)
                              ++ (t.flatMap escJChar ++ '"' :: rest)
                            = '\\' :: 'u' :: (hex4 c.toNat
                              ++ (t.flatMap escJChar ++ '"' :: rest)) from by simp]
                          rw [parseStr_u f c.toNat _ h10 hsur]
                          simp [iht, Char.ofNat_toNat]
                        · have hv : c.toNat < 1114112 := by
                            rcases char_valid_bounds c with hv | hv
                            · omega
                            · exact hv.2
                          rw [show escJChar c = '\\' :: 'u'
                              :: hex4 (55296 + (c.toNat - 65536) / 1024)
                              ++ '\\' :: 'u' :: hex4 (56320 + (c.toNat - 65536) % 1024) from by
                            unfold escJChar
                            rw [if_neg h1, if_neg h2, if_neg h3, if_neg h4, if_neg h5,
                              if_neg h6, if_neg h7, if_neg h8, if_neg h9, if_neg h10]]
                          rw [show ('\\' :: 'u' :: hex4 (55296 + (c.toNat - 65536) / 1024)
                              ++ '\\' :: 'u' :: hex4 (56320 + (c.toNat - 65536) % 1024))
                              ++ (t.flatMap escJChar ++ '"' :: rest)
                            = '\\' :: 'u' :: (hex4 (55296 + (c.toNat - 65536) / 1024)
                              ++ ('\\' :: 'u' :: (hex4 (56320 + (c.toNat - 65536) % 1024)
                              ++ (t.flatMap escJChar ++ '"' :: rest)))) from by simp]
                          rw [parseStr_u_pair f c.toNat _ (by omega) hv]
                          simp [iht, Char.ofNat_toNat]

end StringRoundtrip

section ValueRoundtrip

/-- Structural induction for `Json` through its nested lists. -/
theorem Json.myrec (P : Json → Prop)
    (hnull : P .null) (hbool : ∀ b, P (.bool b)) (hnum : ∀ n, P (.num n))
    (hstr : ∀ s, P (.str s))
    (harr : ∀ l, (∀ x ∈ l, P x) → P (.arr l))
    (hobj : ∀ m, (∀ p ∈ m, P p.2) → P (.obj m)) : ∀ j, P j := by
  have H : ∀ n (j : Json), sizeOf j ≤ n → P j := by
    intro n
    induction n with
    | zero =>
      intro j hj
      exact absurd hj (by cases j <;> simp)
    | succ n ih =>
      intro j hj
      cases j with
      | null => exact hnull
      | bool b => exact hbool b
      | num k => exact hnum k
      | str s => exact hstr s
      | arr l =>
        apply harr
        intro x hx
        apply ih
        have hlt := List.sizeOf_lt_of_mem hx
        have hs : sizeOf (Json.arr l) = 1 + sizeOf l := by simp
        omega
      | obj m =>
        apply hobj
        intro p hp
        apply ih
        have hlt := List.sizeOf_lt_of_mem hp
        have hp2 : sizeOf p.2 < sizeOf p := by
          obtain ⟨a, b⟩ := p
          show sizeOf b < sizeOf (a, b)
          have hab : sizeOf (a, b) = 1 + sizeOf a + sizeOf b := by simp
          omega
        have hs : sizeOf (Json.obj m) = 1 + sizeOf m := by simp
        omega
  exact fun j => H (sizeOf j) j le_rfl

theorem ne_of_isDig (c d : Char) (h : isDig c = true) (hd : isDig d = false) : ¬ c = d := by
  intro e
  subst e
  rw [h] at hd
  cases hd

theorem skipWs_cons_of (c : Char) (cs : List Char)
    (h : (c = ' ' || c = '\t' || c = '\n' || c = '\r') = false) :
    skipWs (c :: cs) = c :: cs := by
  simp only [skipWs, h]
  simp

theorem parseValue_ws (f : Nat) (l : List Char) :
    parseValue f (' ' :: l) = parseValue f l := by
  cases f with
  | zero => rfl
  | succ f => rfl

/-- Heads of serialized values: never whitespace, `]`, or the closing
brace. -/
theorem emit_head (j : Json) : ∃ c t, emitVal j = c :: t ∧
    (c = ' ' || c = '\t' || c = '\n' || c = '\r') = false ∧ ¬ c = ']' ∧ ¬ c = rbrace := by
  cases j with
  | null => exact ⟨'n', _, by rw [emitVal], by decide, by decide, by decide⟩
  | bool b => cases b with
    | true => exact ⟨'t', _, by rw [emitVal], by decide, by decide, by decide⟩
    | false => exact ⟨'f', _, by rw [emitVal], by decide, by decide, by decide⟩
  | str s =>
    exact ⟨'"', escJ s ++ ['"'], by rw [emitVal]; exact List.cons_append _ _ _,
      by decide, by decide, by decide⟩
  | arr l => cases l with
    | nil => exact ⟨'[', _, by rw [emitVal], by decide, by decide, by decide⟩
    | cons v t =>
      refine ⟨'[', emitVal v ++ emitArrSep t, ?_, by decide, by decide, by decide⟩
      rw [emitVal]
  | obj m => cases m with
    | nil => exact ⟨lbrace, _, by rw [emitVal], by decide, by decide, by decide⟩
    | cons p t =>
      obtain ⟨k, v⟩ := p
      refine ⟨lbrace, emitMember k v ++ emitObjSep t, ?_, by decide, by decide, by decide⟩
      rw [emitVal]
  | num n =>
    by_cases hn : n < 0
    · refine ⟨'-', natDigits n.natAbs, ?_, by decide, by decide, by decide⟩
      rw [show emitVal (Json.num n) = intDigits n from by rw [emitVal]]
      unfold intDigits
      rw [if_pos hn]
    · obtain ⟨c, t, hct⟩ := List.exists_cons_of_ne_nil (natDigits_ne_nil n.toNat)
      have hc : isDig c = true := natDigits_digits n.toNat c
        (by rw [hct]; exact List.mem_cons_self _ _)
      refine ⟨c, t, ?_, ?_, ne_of_isDig _ _ hc (by decide), ne_of_isDig _ _ hc (by decide)⟩
      · rw [show emitVal (Json.num n) = intDigits n from by rw [emitVal]]
        unfold intDigits
        rw [if_neg hn, hct]
      · have w1 := ne_of_isDig _ ' ' hc (by decide)
        have w2 := ne_of_isDig _ '\t' hc (by decide)
        have w3 := ne_of_isDig _ '\n' hc (by decide)
        have w4 := ne_of_isDig _ '\r' hc (by decide)
        simp [w1, w2, w3, w4]

theorem intDigits_head (n : Int) :
    ∃ c t, intDigits n = c :: t ∧ (c = '-' ∨ isDig c = true) := by
  by_cases hn : n < 0
  · exact ⟨'-', natDigits n.natAbs, by unfold intDigits; rw [if_pos hn], Or.inl rfl⟩
  · obtain ⟨c, t, hct⟩ := List.exists_cons_of_ne_nil (natDigits_ne_nil n.toNat)
    have hc : isDig c = true := natDigits_digits n.toNat c
      (by rw [hct]; exact List.mem_cons_self _ _)
    exact ⟨c, t, by unfold intDigits; rw [if_neg hn, hct], Or.inr hc⟩

theorem num_head_facts (c : Char) (hc : c = '-' ∨ isDig c = true) :
    (c = ' ' || c = '\t' || c = '\n' || c = '\r') = false ∧ ¬ c = '"' ∧ ¬ c = lbrace ∧
    ¬ c = '[' ∧ ¬ c = 't' ∧ ¬ c = 'f' ∧ ¬ c = 'n' ∧ (c = '-' || isDig c) = true := by
  rcases hc with h | h
  · subst h
    exact ⟨by decide, by decide, by decide, by decide, by decide, by decide, by decide,
      by decide⟩
  · have w1 := ne_of_isDig _ ' ' h (by decide)
    have w2 := ne_of_isDig _ '\t' h (by decide)
    have w3 := ne_of_isDig _ '\n' h (by decide)
    have w4 := ne_of_isDig _ '\r' h (by decide)
    exact ⟨by simp [w1, w2, w3, w4], ne_of_isDig _ _ h (by decide),
      ne_of_isDig _ _ h (by decide), ne_of_isDig _ _ h (by decide),
      ne_of_isDig _ _ h (by decide), ne_of_isDig _ _ h (by decide),
      ne_of_isDig _ _ h (by decide), by simp [h]⟩

theorem numOkB_emitArrSep (t : List Json) (r : List Char) :
    numOkB (emitArrSep t ++ r) = true := by
  cases t with
  | nil => rw [emitArrSep]; rfl
  | cons v t => rw [emitArrSep]; rfl

theorem numOkB_emitObjSep (t : List (String × Json)) (r : List Char) :
    numOkB (emitObjSep t ++ r) = true := by
  cases t with
  | nil => rw [emitObjSep]; rfl
  | cons p t =>
    obtain ⟨k, v⟩ := p
    rw [emitObjSep]
    rfl

theorem wfList_mem (l : List Json) (h : wfList l = true) : ∀ x ∈ l, wfJ x = true := by
  induction l with
  | nil => simp
  | cons v t ih =>
    rw [wfList, Bool.and_eq_true] at h
    intro x hx
    rcases List.mem_cons.mp hx with h1 | h2
    · exact h1 ▸ h.1
    · exact ih h.2 x h2

theorem wfMembers_mem (m : List (String × Json)) (h : wfMembers m = true) :
    ∀ p ∈ m, wfJ p.2 = true := by
  induction m with
  | nil => simp
  | cons p t ih =>
    obtain ⟨k, v⟩ := p
    rw [wfMembers, Bool.and_eq_true] at h
    intro q hq
    rcases List.mem_cons.mp hq with h1 | h2
    · exact h1 ▸ h.1
    · exact ih h.2 q h2

theorem nodupKeysB_cons (k : String) (v : Json) (t : List (String × Json))
    (h : nodupKeysB ((k, v) :: t) = true) :
    ¬ k ∈ dictKeys t ∧ nodupKeysB t = true := by
  rw [nodupKeysB, Bool.and_eq_true] at h
  refine ⟨?_, h.2⟩
  have hn := h.1
  simp [dictKeys] at hn ⊢
  intro x hx
  exact hn x hx

theorem nodupKeysB_append_left_not_mem (xs ys : List (String × Json)) (k : String)
    (hk : k ∈ dictKeys ys) (h : nodupKeysB (xs ++ ys) = true) : ¬ k ∈ dictKeys xs := by
  induction xs with
  | nil => simp [dictKeys]
  | cons p t ih =>
    obtain ⟨k', v'⟩ := p
    rw [List.cons_append] at h
    obtain ⟨hnot, hrest⟩ := nodupKeysB_cons _ _ _ h
    intro hmem
    rw [dictKeys_cons] at hmem
    rcases List.mem_cons.mp hmem with h1 | h2
    · subst h1
      apply hnot
      rw [show dictKeys (t ++ ys) = dictKeys t ++ dictKeys ys from by simp [dictKeys]]
      exact List.mem_append_right _ hk
    · exact ih hrest h2

theorem skipWs_space (l : List Char) : skipWs (' ' :: l) = skipWs l := by
  simp [skipWs]

/-- Parsing a serialized object member. -/
theorem parseMember_emit (k : String) (v : Json) (fuel : Nat) (rest : List Char)
    (hv : ∀ f r, needJ v ≤ f → numOkB r = true →
      parseValue f (emitVal v ++ r) = some (v, r))
    (hne : 1 + needJ v ≤ fuel) (hrest : numOkB rest = true) :
    parseMember fuel (emitMember k v ++ rest) = some (k, v, rest) := by
  match fuel, hne with
  | 0, h => exact absurd h (by omega)
  | f + 1, hne2 =>
    have hshape : emitMember k v ++ rest
        = '"' :: (escJ k ++ ('"' :: ':' :: ' ' :: (emitVal v ++ rest))) := by
      rw [emitMember]
      simp
    rw [hshape, parseMember]
    try dsimp only
    rw [if_pos rfl]
    rw [show escJ k = k.toList.flatMap escJChar from rfl]
    have hb : k.toList.length + 1
        ≤ (k.toList.flatMap escJChar ++ ('"' :: ':' :: ' ' :: (emitVal v ++ rest))).length + 1 := by
      have := length_le_escJ k.toList
      rw [show (k.toList.flatMap escJChar) = escJ k from rfl] at this ⊢
      simp only [List.length_append]
      omega
    rw [show (k.toList.flatMap escJChar ++ ('"' :: ':' :: ' ' :: (emitVal v ++ rest)))
        = k.toList.flatMap escJChar ++ '"' :: (':' :: ' ' :: (emitVal v ++ rest)) from rfl]
    rw [parseStr_escJ k.toList (':' :: ' ' :: (emitVal v ++ rest)) _
      (by simpa using hb)]
    try dsimp only
    rw [skipWs_cons_of _ _ (by decide)]
    try dsimp only
    rw [if_pos rfl, parseValue_ws]
    rw [hv f rest (by omega) hrest]
    rfl

/-- Parsing the remaining serialized elements of an array. -/
theorem parseArrRest_emit (t : List Json) (f : Nat) (rest : List Char)
    (hP : ∀ x ∈ t, ∀ fuel r, wfJ x = true → needJ x ≤ fuel → numOkB r = true →
      parseValue fuel (emitVal x ++ r) = some (x, r))
    (hwf : wfList t = true) (hne : needArr t ≤ f) :
    parseArrRest f (emitArrSep t ++ rest) = some (t, rest) := by
  induction t generalizing f rest with
  | nil =>
    cases f with
    | zero => exact absurd hne (by rw [needArr]; omega)
    | succ f' =>
      rw [show emitArrSep ([] : List Json) ++ rest = ']' :: rest from by rw [emitArrSep]; rfl]
      rw [parseArrRest, skipWs_cons_of _ _ (by decide)]
      try dsimp only
      rw [if_pos rfl]
  | cons v t ih =>
    cases f with
    | zero => exact absurd hne (by rw [needArr]; omega)
    | succ f' =>
      rw [needArr] at hne
      have hm : Nat.max (needJ v) (needArr t) ≤ f' := by omega
      obtain ⟨hnv, hnt⟩ := Nat.max_le.mp hm
      rw [wfList, Bool.and_eq_true] at hwf
      have he : emitArrSep (v :: t) ++ rest
          = ',' :: (' ' :: (emitVal v ++ (emitArrSep t ++ rest))) := by
        rw [emitArrSep]
        simp
      rw [he, parseArrRest, skipWs_cons_of _ _ (by decide)]
      try dsimp only
      rw [if_neg (by decide : ¬ (',' : Char) = ']'), if_pos rfl, parseValue_ws]
      rw [hP v (List.mem_cons_self _ _) f' _ hwf.1 hnv (numOkB_emitArrSep t rest)]
      try dsimp only
      rw [ih f' rest (fun x hx => hP x (List.mem_cons_of_mem _ hx)) hwf.2 hnt]

/-- Parsing the remaining serialized members of an object, with the Python
dict accumulation. -/
theorem parseObjRest_emit (m : List (String × Json)) (acc : List (String × Json))
    (f : Nat) (rest : List Char)
    (hP : ∀ p ∈ m, ∀ fuel r, wfJ p.2 = true → needJ p.2 ≤ fuel → numOkB r = true →
      parseValue fuel (emitVal p.2 ++ r) = some (p.2, r))
    (hwf : wfMembers m = true) (hnd : nodupKeysB (acc ++ m) = true)
    (hne : needObj m ≤ f) :
    parseObjRest f acc (emitObjSep m ++ rest) = some (Json.obj (acc ++ m), rest) := by
  induction m generalizing acc f rest with
  | nil =>
    cases f with
    | zero => exact absurd hne (by rw [needObj]; omega)
    | succ f' =>
      rw [show emitObjSep ([] : List (String × Json)) ++ rest = rbrace :: rest from by
        rw [emitObjSep]; rfl]
      rw [parseObjRest, skipWs_cons_of _ _ (by decide)]
      try dsimp only
      rw [if_pos rfl]
      simp
  | cons p m' ih =>
    obtain ⟨k, v⟩ := p
    cases f with
    | zero => exact absurd hne (by rw [needObj]; omega)
    | succ f' =>
      rw [needObj] at hne
      have hm : Nat.max (1 + needJ v) (needObj m') ≤ f' := by omega
      obtain ⟨hnv, hnm⟩ := Nat.max_le.mp hm
      rw [wfMembers, Bool.and_eq_true] at hwf
      have he : emitObjSep ((k, v) :: m') ++ rest
          = ',' :: (' ' :: (emitMember k v ++ (emitObjSep m' ++ rest))) := by
        rw [emitObjSep]
        simp
      rw [he, parseObjRest, skipWs_cons_of _ _ (by decide)]
      try dsimp only
      rw [if_neg (by decide : ¬ (',' : Char) = rbrace), if_pos rfl, skipWs_space]
      have hmem : emitMember k v ++ (emitObjSep m' ++ rest)
          = '"' :: (escJ k ++ ('"' :: ':' :: ' ' :: (emitVal v ++ (emitObjSep m' ++ rest)))) := by
        rw [emitMember]
        simp
      rw [hmem, skipWs_cons_of _ _ (by decide), ← hmem]
      rw [parseMember_emit k v f' _ (fun fl r hnf hnr =>
        hP (k, v) (List.mem_cons_self _ _) fl r hwf.1 hnf hnr) hnv
        (numOkB_emitObjSep m' rest)]
      try dsimp only
      have hkacc : ¬ k ∈ dictKeys acc :=
        nodupKeysB_append_left_not_mem acc ((k, v) :: m') k
          (by rw [dictKeys_cons]; exact List.mem_cons_self _ _) hnd
      rw [dictInsert_eq_append acc k v hkacc]
      have hnd' : nodupKeysB ((acc ++ [(k, v)]) ++ m') = true := by
        rw [show (acc ++ [(k, v)]) ++ m' = acc ++ ((k, v) :: m') from by simp]
        exact hnd
      rw [ih (acc ++ [(k, v)]) f' rest (fun q hq => hP q (List.mem_cons_of_mem _ hq)) hwf.2
        hnd' hnm]
      simp

/-- Parsing the serialization of a well-formed value recovers it exactly. -/
theorem parseValue_emit (j : Json) : ∀ (fuel : Nat) (rest : List Char), wfJ j = true →
    needJ j ≤ fuel → numOkB rest = true →
    parseValue fuel (emitVal j ++ rest) = some (j, rest) := by
  induction j using Json.myrec with
  | hnull =>
    intro fuel rest hwf hneed hnum
    cases fuel with
    | zero => exact absurd hneed (by rw [needJ]; omega)
    | succ f =>
      rw [show emitVal Json.null ++ rest = 'n' :: ('u' :: 'l' :: 'l' :: rest) from by
        rw [emitVal]; rfl]
      rw [parseValue, skipWs_cons_of _ _ (by decide)]
      try dsimp only
      rw [if_neg (by decide), if_neg (by decide), if_neg (by decide), if_neg (by decide),
        if_neg (by decide), if_pos rfl]
      rfl
  | hbool b =>
    intro fuel rest hwf hneed hnum
    cases fuel with
    | zero => exact absurd hneed (by rw [needJ]; omega)
    | succ f =>
      cases b with
      | true =>
        rw [show emitVal (Json.bool true) ++ rest = 't' :: ('r' :: 'u' :: 'e' :: rest) from by
          rw [emitVal]; rfl]
        rw [parseValue, skipWs_cons_of _ _ (by decide)]
        try dsimp only
        rw [if_neg (by decide), if_neg (by decide), if_neg (by decide), if_pos rfl]
        rfl
      | false =>
        rw [show emitVal (Json.bool false) ++ rest
            = 'f' :: ('a' :: 'l' :: 's' :: 'e' :: rest) from by rw [emitVal]; rfl]
        rw [parseValue, skipWs_cons_of _ _ (by decide)]
        try dsimp only
        rw [if_neg (by decide), if_neg (by decide), if_neg (by decide), if_neg (by decide),
          if_pos rfl]
        rfl
  | hnum n =>
    intro fuel rest hwf hneed hnum
    cases fuel with
    | zero => exact absurd hneed (by rw [needJ]; omega)
    | succ f =>
      obtain ⟨c, t, hct, hc⟩ := intDigits_head n
      obtain ⟨w, n1, n2, n3, n4, n5, n6, n7⟩ := num_head_facts c hc
      have he : emitVal (Json.num n) = c :: t := by
        rw [emitVal]
        exact hct
      rw [he, show (c :: t) ++ rest = c :: (t ++ rest) from rfl]
      rw [parseValue, skipWs_cons_of _ _ w]
      try dsimp only
      rw [if_neg n1, if_neg n2, if_neg n3, if_neg n4, if_neg n5, if_neg n6, if_pos n7]
      rw [show c :: (t ++ rest) = intDigits n ++ rest from by rw [hct]; rfl]
      exact parseNum_intDigits n rest hnum
  | hstr s =>
    intro fuel rest hwf hneed hnum
    cases fuel with
    | zero => exact absurd hneed (by rw [needJ]; omega)
    | succ f =>
      have he : emitVal (Json.str s) ++ rest = '"' :: (escJ s ++ ('"' :: rest)) := by
        rw [emitVal]
        simp
      rw [he, parseValue, skipWs_cons_of _ _ (by decide)]
      try dsimp only
      rw [if_pos rfl]
      rw [show escJ s = s.toList.flatMap escJChar from rfl]
      have hb : s.toList.length + 1
          ≤ (s.toList.flatMap escJChar ++ ('"' :: rest)).length + 1 := by
        have := length_le_escJ s.toList
        simp only [List.length_append]
        omega
      rw [show (s.toList.flatMap escJChar ++ ('"' :: rest))
          = s.toList.flatMap escJChar ++ '"' :: rest from rfl]
      rw [parseStr_escJ s.toList rest _ (by simpa using hb)]
      rfl
  | harr l hP =>
    intro fuel rest hwf hneed hnum
    cases l with
    | nil =>
      cases fuel with
      | zero => exact absurd hneed (by rw [needJ]; omega)
      | succ f =>
        rw [show emitVal (Json.arr []) ++ rest = '[' :: (']' :: rest) from by rw [emitVal]; rfl]
        rw [parseValue, skipWs_cons_of _ _ (by decide)]
        try dsimp only
        rw [if_neg (by decide), if_neg (by decide), if_pos rfl,
          skipWs_cons_of _ _ (by decide)]
        try dsimp only
        rw [if_pos rfl]
    | cons v t =>
      cases fuel with
      | zero => exact absurd hneed (by rw [needJ]; omega)
      | succ f =>
        rw [needJ] at hneed
        have hm : Nat.max (needJ v) (needArr t) ≤ f := by omega
        obtain ⟨hnv, hnt⟩ := Nat.max_le.mp hm
        rw [wfJ, wfList, Bool.and_eq_true] at hwf
        have he : emitVal (Json.arr (v :: t)) ++ rest
            = '[' :: (emitVal v ++ (emitArrSep t ++ rest)) := by
          rw [emitVal]
          simp
        rw [he, parseValue, skipWs_cons_of _ _ (by decide)]
        try dsimp only
        rw [if_neg (by decide), if_neg (by decide), if_pos rfl]
        obtain ⟨c2, t2, hct2, hw2, hne2, _⟩ := emit_head v
        rw [show emitVal v ++ (emitArrSep t ++ rest) = c2 :: (t2 ++ (emitArrSep t ++ rest))
          from by rw [hct2]; rfl]
        rw [skipWs_cons_of _ _ hw2]
        try dsimp only
        rw [if_neg hne2]
        rw [show c2 :: (t2 ++ (emitArrSep t ++ rest)) = emitVal v ++ (emitArrSep t ++ rest)
          from by rw [hct2]; rfl]
        rw [hP v (List.mem_cons_self _ _) f _ hwf.1 hnv (numOkB_emitArrSep t rest)]
        try dsimp only
        rw [parseArrRest_emit t f rest (fun x hx => hP x (List.mem_cons_of_mem _ hx))
          hwf.2 hnt]
  | hobj m hP =>
    intro fuel rest hwf hneed hnum
    cases m with
    | nil =>
      cases fuel with
      | zero => exact absurd hneed (by rw [needJ]; omega)
      | succ f =>
        rw [show emitVal (Json.obj []) ++ rest = lbrace :: (rbrace :: rest) from by
          rw [emitVal]; rfl]
        rw [parseValue, skipWs_cons_of _ _ (by decide)]
        try dsimp only
        rw [if_neg (by decide), if_pos rfl, skipWs_cons_of _ _ (by decide)]
        try dsimp only
        rw [if_pos rfl]
    | cons p m' =>
      obtain ⟨k, v⟩ := p
      cases fuel with
      | zero => exact absurd hneed (by rw [needJ]; omega)
      | succ f =>
        rw [needJ] at hneed
        have hmx : Nat.max (1 + needJ v) (needObj m') ≤ f := by omega
        obtain ⟨hnv, hnm⟩ := Nat.max_le.mp hmx
        rw [wfJ, Bool.and_eq_true] at hwf
        obtain ⟨hnd, hwm⟩ := hwf
        rw [wfMembers, Bool.and_eq_true] at hwm
        have he : emitVal (Json.obj ((k, v) :: m')) ++ rest
            = lbrace :: (emitMember k v ++ (emitObjSep m' ++ rest)) := by
          rw [emitVal]
          simp
        rw [he, parseValue, skipWs_cons_of _ _ (by decide)]
        try dsimp only
        rw [if_neg (by decide), if_pos rfl]
        have hmem : emitMember k v ++ (emitObjSep m' ++ rest)
            = '"' :: (escJ k ++ ('"' :: ':' :: ' ' :: (emitVal v ++ (emitObjSep m' ++ rest)))) := by
          rw [emitMember]
          simp
        rw [hmem, skipWs_cons_of _ _ (by decide)]
        try dsimp only
        rw [if_neg (by decide : ¬ ('"' : Char) = rbrace), ← hmem]
        rw [parseMember_emit k v f _ (fun fl r hnf hnr =>
          hP (k, v) (List.mem_cons_self _ _) fl r hwm.1 hnf hnr) hnv
          (numOkB_emitObjSep m' rest)]
        try dsimp only
        rw [show dictInsert [] k v = [(k, v)] from rfl]
        rw [parseObjRest_emit m' [(k, v)] f rest
          (fun q hq => hP q (List.mem_cons_of_mem _ hq)) hwm.2
          (by simpa using hnd) hnm]
        rfl

theorem needJ_le_emit (j : Json) : needJ j ≤ (emitVal j).length + 1 := by
  induction j using Json.myrec with
  | hnull => rw [needJ]; omega
  | hbool b => rw [needJ]; omega
  | hnum n => rw [needJ]; omega
  | hstr s => rw [needJ]; omega
  | harr l hmem =>
    have B : ∀ t : List Json, (∀ x ∈ t, needJ x ≤ (emitVal x).length + 1) →
        needArr t ≤ (emitArrSep t).length := by
      intro t
      induction t with
      | nil =>
        intro _
        rw [needArr, emitArrSep]
        simp
      | cons v t ihb =>
        intro hm
        have h1 := hm v (List.mem_cons_self _ _)
        have h2 := ihb (fun x hx => hm x (List.mem_cons_of_mem _ hx))
        rw [needArr, emitArrSep]
        simp only [List.length_cons, List.length_append]
        have hmax : Nat.max (needJ v) (needArr t)
            ≤ (emitVal v).length + 1 + (emitArrSep t).length :=
          Nat.max_le.mpr ⟨by omega, by omega⟩
        omega
    cases l with
    | nil =>
      rw [needJ, emitVal]
      simp
    | cons v t =>
      have h1 := hmem v (List.mem_cons_self _ _)
      have hB := B t (fun x hx => hmem x (List.mem_cons_of_mem _ hx))
      rw [needJ, emitVal]
      simp only [List.length_cons, List.length_append]
      have hmax : Nat.max (needJ v) (needArr t)
          ≤ (emitVal v).length + 1 + (emitArrSep t).length :=
        Nat.max_le.mpr ⟨by omega, by omega⟩
      omega
  | hobj m hmem =>
    have hmemlen : ∀ (k : String) (v : Json),
        (emitMember k v).length = 4 + (escJ k).length + (emitVal v).length := by
      intro k v
      rw [emitMember]
      simp only [List.length_append, List.length_cons]
      omega
    have C : ∀ t : List (String × Json), (∀ p ∈ t, needJ p.2 ≤ (emitVal p.2).length + 1) →
        needObj t ≤ (emitObjSep t).length := by
      intro t
      induction t with
      | nil =>
        intro _
        rw [needObj, emitObjSep]
        simp
      | cons p t ihc =>
        obtain ⟨k, v⟩ := p
        intro hm
        have h1 := hm (k, v) (List.mem_cons_self _ _)
        have h2 := ihc (fun q hq => hm q (List.mem_cons_of_mem _ hq))
        rw [needObj, emitObjSep]
        simp only [List.length_cons, List.length_append]
        rw [hmemlen k v]
        have hmax : Nat.max (1 + needJ v) (needObj t)
            ≤ 3 + (escJ k).length + (emitVal v).length + 1 + (emitObjSep t).length :=
          Nat.max_le.mpr ⟨by simp at h1; omega, by omega⟩
        omega
    cases m with
    | nil =>
      rw [needJ, emitVal]
      simp
    | cons p m' =>
      obtain ⟨k, v⟩ := p
      have h1 := hmem (k, v) (List.mem_cons_self _ _)
      have hC := C m' (fun q hq => hmem q (List.mem_cons_of_mem _ hq))
      rw [needJ, emitVal]
      simp only [List.length_cons, List.length_append]
      rw [hmemlen k v]
      have hmax : Nat.max (1 + needJ v) (needObj m')
          ≤ 3 + (escJ k).length + (emitVal v).length + 1 + (emitObjSep m').length :=
        Nat.max_le.mpr ⟨by simp at h1; omega, by omega⟩
      omega

/-- `json.loads` inverts `json.dumps` on well-formed values. -/
theorem jsonLoads_dumps (j : Json) (h : wfJ j = true) : jsonLoads (jsonDumps j) = some j := by
  unfold jsonLoads jsonDumps
  rw [toList_mk]
  have hp := parseValue_emit j ((emitVal j).length + 1) [] h
    (le_trans (needJ_le_emit j) (by omega)) rfl
  rw [show emitVal j ++ ([] : List Char) = emitVal j from by simp] at hp
  rw [hp]
  rfl

end ValueRoundtrip

section Lines

theorem hexDigitChar_ne_nl : ∀ d < 16, ¬ hexDigitChar d = '\n' := by decide

theorem escJChar_no_nl (c : Char) : ∀ x ∈ escJChar c, ¬ x = '\n' := by
  have hx : ∀ k, ∀ x ∈ hex4 k, ¬ x = '\n' := by
    intro k x hmem
    rw [hex4] at hmem
    simp only [List.mem_cons, List.not_mem_nil, or_false] at hmem
    rcases hmem with h | h | h | h <;>
      exact h ▸ hexDigitChar_ne_nl _ (Nat.mod_lt _ (by norm_num))
  have hu : ∀ (k : Nat) (tl : List Char), (∀ x ∈ tl, ¬ x = '\n') →
      ∀ x ∈ '\\' :: 'u' :: (hex4 k ++ tl), ¬ x = '\n' := by
    intro k tl htl x hmem
    rcases List.mem_cons.mp hmem with h | h
    · simp [h]
    rcases List.mem_cons.mp h with h | h
    · simp [h]
    rw [List.mem_append] at h
    rcases h with h | h
    · exact hx _ _ h
    · exact htl x h
  by_cases h1 : c = '"'
  · subst h1
    decide
  by_cases h2 : c = '\\'
  · subst h2
    decide
  by_cases h3 : c = '\n'
  · subst h3
    decide
  by_cases h4 : c = '\r'
  · subst h4
    decide
  by_cases h5 : c = '\t'
  · subst h5
    decide
  by_cases h6 : c.toNat = 8
  · rw [show escJChar c = ['\\', 'b'] from by
      unfold escJChar
      rw [if_neg h1, if_neg h2, if_neg h3, if_neg h4, if_neg h5, if_pos h6]]
    decide
  by_cases h7 : c.toNat = 12
  · rw [show escJChar c = ['\\', 'f'] from by
      unfold escJChar
      rw [if_neg h1, if_neg h2, if_neg h3, if_neg h4, if_neg h5, if_neg h6, if_pos h7]]
    decide
  by_cases h8 : c.toNat < 32
  · rw [show escJChar c = '\\' :: 'u' :: hex4 c.toNat from by
      unfold escJChar
      rw [if_neg h1, if_neg h2, if_neg h3, if_neg h4, if_neg h5, if_neg h6, if_neg h7,
        if_pos h8]]
    rw [show ('\\' :: 'u' :: hex4 c.toNat : List Char)
      = '\\' :: 'u' :: (hex4 c.toNat ++ []) from by simp]
    exact hu c.toNat [] (by simp)
  by_cases h9 : c.toNat < 127
  · rw [show escJChar c = [c] from by
      unfold escJChar
      rw [if_neg h1, if_neg h2, if_neg h3, if_neg h4, if_neg h5, if_neg h6, if_neg h7,
        if_neg h8, if_pos h9]]
    intro x hmem
    rcases List.mem_cons.mp hmem with h | h
    · exact h ▸ h3
    · simp at h
  by_cases h10 : c.toNat < 65536
  · rw [show escJChar c = '\\' :: 'u' :: hex4 c.toNat from by
      unfold escJChar
      rw [if_neg h1, if_neg h2, if_neg h3, if_neg h4, if_neg h5, if_neg h6, if_neg h7,
        if_neg h8, if_neg h9, if_pos h10]]
    rw [show ('\\' :: 'u' :: hex4 c.toNat : List Char)
      = '\\' :: 'u' :: (hex4 c.toNat ++ []) from by simp]
    exact hu c.toNat [] (by simp)
  · rw [show escJChar c = '\\' :: 'u'
        :: hex4 (55296 + (c.toNat - 65536) / 1024)
        ++ '\\' :: 'u' :: hex4 (56320 + (c.toNat - 65536) % 1024) from by
      unfold escJChar
      rw [if_neg h1, if_neg h2, if_neg h3, if_neg h4, if_neg h5, if_neg h6, if_neg h7,
        if_neg h8, if_neg h9, if_neg h10]]
    rw [show ('\\' :: 'u' :: hex4 (55296 + (c.toNat - 65536) / 1024)
        ++ '\\' :: 'u' :: hex4 (56320 + (c.toNat - 65536) % 1024) : List Char)
      = '\\' :: 'u' :: (hex4 (55296 + (c.toNat - 65536) / 1024)
        ++ ('\\' :: 'u' :: (hex4 (56320 + (c.toNat - 65536) % 1024) ++ []))) from by simp]
    apply hu
    rw [show ('\\' :: 'u' :: (hex4 (56320 + (c.toNat - 65536) % 1024) ++ []) : List Char)
      = '\\' :: 'u' :: (hex4 (56320 + (c.toNat - 65536) % 1024) ++ []) from rfl]
    exact hu _ [] (by simp)

theorem natDigits_no_nl (n : Nat) : ∀ x ∈ natDigits n, ¬ x = '\n' :=
  fun x hx => ne_of_isDig x '\n' (natDigits_digits n x hx) (by decide)

theorem intDigits_no_nl (n : Int) : ∀ x ∈ intDigits n, ¬ x = '\n' := by
  unfold intDigits
  split
  · intro x hx
    rcases List.mem_cons.mp hx with h | h
    · simp [h]
    · exact natDigits_no_nl _ x h
  · exact natDigits_no_nl _

/-- Serialized JSON never contains a raw newline (so one `dumps` output plus
`'\n'` is exactly one line of the log file). -/
theorem emit_no_nl (j : Json) : ∀ x ∈ emitVal j, ¬ x = '\n' := by
  induction j using Json.myrec with
  | hnull =>
    rw [emitVal]
    decide
  | hbool b =>
    cases b <;> (rw [emitVal]; decide)
  | hnum n =>
    rw [show emitVal (Json.num n) = intDigits n from by rw [emitVal]]
    exact intDigits_no_nl n
  | hstr s =>
    rw [emitVal]
    intro x hx
    rcases List.mem_cons.mp hx with h | h
    · simp [h]
    rcases List.mem_append.mp h with h | h
    · rw [show escJ s = s.toList.flatMap escJChar from rfl] at h
      rw [List.mem_flatMap] at h
      obtain ⟨c, _, hc⟩ := h
      exact escJChar_no_nl c x hc
    · simp at h
      simp [h]
  | harr l hmem =>
    have B : ∀ t : List Json, (∀ v ∈ t, ∀ x ∈ emitVal v, ¬ x = '\n') →
        ∀ x ∈ emitArrSep t, ¬ x = '\n' := by
      intro t
      induction t with
      | nil =>
        intro _
        rw [emitArrSep]
        decide
      | cons v t ihb =>
        intro hm x hx
        rw [emitArrSep] at hx
        rcases List.mem_cons.mp hx with h | h
        · simp [h]
        rcases List.mem_cons.mp h with h | h
        · simp [h]
        rcases List.mem_append.mp h with h | h
        · exact hm v (List.mem_cons_self _ _) x h
        · exact ihb (fun v hv => hm v (List.mem_cons_of_mem _ hv)) x h
    cases l with
    | nil =>
      rw [emitVal]
      decide
    | cons v t =>
      intro x hx
      rw [emitVal] at hx
      rcases List.mem_cons.mp hx with h | h
      · simp [h]
      rcases List.mem_append.mp h with h | h
      · exact hmem v (List.mem_cons_self _ _) x h
      · exact B t (fun u hu => hmem u (List.mem_cons_of_mem _ hu)) x h
  | hobj m hmem =>
    have M : ∀ (k : String) (v : Json), (∀ x ∈ emitVal v, ¬ x = '\n') →
        ∀ x ∈ emitMember k v, ¬ x = '\n' := by
      intro k v hv x hx
      rw [emitMember] at hx
      rcases List.mem_cons.mp hx with h | h
      · simp [h]
      rcases List.mem_append.mp h with h | h
      · rw [show escJ k = k.toList.flatMap escJChar from rfl] at h
        rw [List.mem_flatMap] at h
        obtain ⟨c, _, hc⟩ := h
        exact escJChar_no_nl c x hc
      rcases List.mem_cons.mp h with h | h
      · simp [h]
      rcases List.mem_cons.mp h with h | h
      · simp [h]
      rcases List.mem_cons.mp h with h | h
      · simp [h]
      · exact hv x h
    have C : ∀ t : List (String × Json), (∀ p ∈ t, ∀ x ∈ emitVal p.2, ¬ x = '\n') →
        ∀ x ∈ emitObjSep t, ¬ x = '\n' := by
      intro t
      induction t with
      | nil =>
        intro _
        rw [emitObjSep]
        decide
      | cons p t ihc =>
        obtain ⟨k, v⟩ := p
        intro hm x hx
        rw [emitObjSep] at hx
        rcases List.mem_cons.mp hx with h | h
        · simp [h]
        rcases List.mem_cons.mp h with h | h
        · simp [h]
        rcases List.mem_append.mp h with h | h
        · exact M k v (hm (k, v) (List.mem_cons_self _ _)) x h
        · exact ihc (fun q hq => hm q (List.mem_cons_of_mem _ hq)) x h
    cases m with
    | nil =>
      rw [emitVal]
      decide
    | cons p m' =>
      obtain ⟨k, v⟩ := p
      intro x hx
      rw [emitVal] at hx
      rcases List.mem_cons.mp hx with h | h
      · subst h
        decide
      rcases List.mem_append.mp h with h | h
      · exact M k v (hmem (k, v) (List.mem_cons_self _ _)) x h
      · exact C m' (fun q hq => hmem q (List.mem_cons_of_mem _ hq)) x h

theorem splitNl_line (a rest : List Char) (ha : ∀ x ∈ a, ¬ x = '\n') :
    splitNl (a ++ '\n' :: rest) = a :: splitNl rest := by
  induction a with
  | nil => simp [splitNl]
  | cons c t ih =>
    have hc := ha c (List.mem_cons_self _ _)
    rw [List.cons_append, splitNl, if_neg hc, ih (fun x hx => ha x (List.mem_cons_of_mem _ hx))]

end Lines

section ParseWf

theorem wfJ_null : wfJ Json.null = true := by rw [wfJ]
theorem wfJ_bool (b : Bool) : wfJ (Json.bool b) = true := by rw [wfJ]
theorem wfJ_num (n : Int) : wfJ (Json.num n) = true := by rw [wfJ]
theorem wfJ_str (s : String) : wfJ (Json.str s) = true := by rw [wfJ]

theorem wfJ_obj (m : List (String × Json)) (hnd : nodupKeysB m = true)
    (hwm : wfMembers m = true) : wfJ (Json.obj m) = true := by
  rw [wfJ, hnd, hwm]
  rfl

theorem wfJ_obj_inv (m : List (String × Json)) (h : wfJ (Json.obj m) = true) :
    nodupKeysB m = true ∧ wfMembers m = true := by
  rw [wfJ, Bool.and_eq_true] at h
  exact h

theorem wfJ_arr_cons (v : Json) (t : List Json) (hv : wfJ v = true)
    (ht : wfList t = true) : wfJ (Json.arr (v :: t)) = true := by
  rw [wfJ, wfList, hv, ht]
  rfl

theorem nodupKeysB_iff (d : List (String × Json)) :
    nodupKeysB d = true ↔ List.Nodup (dictKeys d) := by
  induction d with
  | nil => simp [nodupKeysB, dictKeys]
  | cons p t ih =>
    obtain ⟨k, v⟩ := p
    rw [nodupKeysB, Bool.and_eq_true, dictKeys_cons, List.nodup_cons, ih]
    constructor
    · rintro ⟨h1, h2⟩
      refine ⟨?_, h2⟩
      simp at h1
      simpa [dictKeys] using h1
    · rintro ⟨h1, h2⟩
      refine ⟨?_, h2⟩
      simp
      simpa [dictKeys] using h1

theorem nodupKeysB_dictInsert (d : List (String × Json)) (k : String) (v : Json)
    (h : nodupKeysB d = true) : nodupKeysB (dictInsert d k v) = true := by
  rw [nodupKeysB_iff] at h ⊢
  by_cases hk : k ∈ dictKeys d
  · rw [dictKeys_dictInsert_mem d k v hk]
    exact h
  · rw [dictKeys_dictInsert_not_mem d k v hk]
    simp [List.nodup_append, h, hk]

theorem wfMembers_dictInsert (d : List (String × Json)) (k : String) (v : Json)
    (hm : wfMembers d = true) (hv : wfJ v = true) :
    wfMembers (dictInsert d k v) = true := by
  induction d with
  | nil =>
    rw [show dictInsert [] k v = [(k, v)] from rfl, wfMembers, wfMembers, hv]
    rfl
  | cons p t ih =>
    obtain ⟨k1, v1⟩ := p
    rw [wfMembers, Bool.and_eq_true] at hm
    by_cases hk : k1 = k
    · rw [show dictInsert ((k1, v1) :: t) k v = (k1, v) :: t from by
        rw [dictInsert, if_pos hk]]
      rw [wfMembers, hv, hm.2]
      rfl
    · rw [show dictInsert ((k1, v1) :: t) k v = (k1, v1) :: dictInsert t k v from by
        rw [dictInsert, if_neg hk]]
      rw [wfMembers, hm.1, ih hm.2]
      rfl

/-- The enrichment step preserves well-formedness. -/
theorem wfJ_enrich (env : PostEnv) (kvs : List (String × Json))
    (h : wfJ (Json.obj kvs) = true) : wfJ (Json.obj (enrich env kvs)) = true := by
  obtain ⟨hnd, hwm⟩ := wfJ_obj_inv _ h
  exact wfJ_obj _ (nodupKeysB_dictInsert _ _ _ hnd)
    (wfMembers_dictInsert _ _ _ hwm (wfJ_str _))

theorem parseNum_shape (cs : List Char) (j : Json) (r : List Char)
    (h : parseNum cs = some (j, r)) : ∃ n, j = Json.num n := by
  unfold parseNum at h
  by_cases hh : cs.head? = some '-'
  · rw [if_pos hh] at h
    cases hp : parseNatNum cs.tail with
    | none => rw [hp] at h; simp at h
    | some p =>
      obtain ⟨v, rest⟩ := p
      rw [hp] at h
      dsimp only at h
      simp only [Option.some.injEq, Prod.mk.injEq] at h
      exact ⟨-(v : Int), h.1.symm⟩
  · rw [if_neg hh] at h
    cases hp : parseNatNum cs with
    | none => rw [hp] at h; simp at h
    | some p =>
      obtain ⟨v, rest⟩ := p
      rw [hp] at h
      dsimp only at h
      simp only [Option.some.injEq, Prod.mk.injEq] at h
      exact ⟨(v : Int), h.1.symm⟩

/-- Everything the parser produces is well-formed: object keys are distinct
at every level (duplicates are merged by dict insertion). -/
theorem parse_wf (fuel : Nat) :
    (∀ cs j r, parseValue fuel cs = some (j, r) → wfJ j = true) ∧
    (∀ cs l r, parseArrRest fuel cs = some (l, r) → wfList l = true) ∧
    (∀ cs k v r, parseMember fuel cs = some (k, v, r) → wfJ v = true) ∧
    (∀ acc cs j r, nodupKeysB acc = true → wfMembers acc = true →
      parseObjRest fuel acc cs = some (j, r) → wfJ j = true) := by
  induction fuel with
  | zero =>
    refine ⟨?_, ?_, ?_, ?_⟩ <;> intros <;> simp_all [parseValue, parseArrRest,
      parseMember, parseObjRest]
  | succ f ih =>
    obtain ⟨ihV, ihA, ihM, ihO⟩ := ih
    refine ⟨?_, ?_, ?_, ?_⟩
    · intro cs j r h
      rw [parseValue] at h
      cases hsk : skipWs cs with
      | nil => rw [hsk] at h; simp at h
      | cons c cs1 =>
        rw [hsk] at h
        try dsimp only at h
        by_cases h1 : c = '"'
        · rw [if_pos h1] at h
          cases hps : parseStr (cs1.length + 1) cs1 with
          | none => rw [hps] at h; simp at h
          | some p =>
            rw [hps] at h
            obtain ⟨sc, rr⟩ := p
            simp only [Option.map_some', Option.some.injEq, Prod.mk.injEq] at h
            rw [← h.1, wfJ_str]
        · rw [if_neg h1] at h
          by_cases h2 : c = lbrace
          · rw [if_pos h2] at h
            cases hsk2 : skipWs cs1 with
            | nil => rw [hsk2] at h; simp at h
            | cons c2 cs2 =>
              rw [hsk2] at h
              try dsimp only at h
              by_cases h3 : c2 = rbrace
              · rw [if_pos h3] at h
                simp only [Option.some.injEq, Prod.mk.injEq] at h
                rw [← h.1]
                exact wfJ_obj [] rfl (by rw [wfMembers])
              · rw [if_neg h3] at h
                cases hpm : parseMember f (c2 :: cs2) with
                | none => rw [hpm] at h; simp at h
                | some t3 =>
                  obtain ⟨k, v, r2⟩ := t3
                  rw [hpm] at h
                  try dsimp only at h
                  have hvwf := ihM _ _ _ _ hpm
                  refine ihO (dictInsert [] k v) r2 j r ?_ ?_ h
                  · rw [show dictInsert [] k v = [(k, v)] from rfl, nodupKeysB]
                    rfl
                  · rw [show dictInsert [] k v = [(k, v)] from rfl, wfMembers, hvwf,
                      wfMembers]
                    rfl
          · rw [if_neg h2] at h
            by_cases h4 : c = '['
            · rw [if_pos h4] at h
              cases hsk2 : skipWs cs1 with
              | nil => rw [hsk2] at h; simp at h
              | cons c2 cs2 =>
                rw [hsk2] at h
                try dsimp only at h
                by_cases h5 : c2 = ']'
                · rw [if_pos h5] at h
                  simp only [Option.some.injEq, Prod.mk.injEq] at h
                  rw [← h.1, wfJ, wfList]
                · rw [if_neg h5] at h
                  cases hpv : parseValue f (c2 :: cs2) with
                  | none => rw [hpv] at h; simp at h
                  | some p =>
                    obtain ⟨v, r2⟩ := p
                    rw [hpv] at h
                    dsimp only at h
                    cases hpa : parseArrRest f r2 with
                    | none => rw [hpa] at h; simp at h
                    | some q =>
                      obtain ⟨vs, r3⟩ := q
                      rw [hpa] at h
                      try dsimp only at h
                      simp only [Option.some.injEq, Prod.mk.injEq] at h
                      rw [← h.1]
                      exact wfJ_arr_cons v vs (ihV _ _ _ hpv) (ihA _ _ _ hpa)
            · rw [if_neg h4] at h
              by_cases h6 : c = 't'
              · rw [if_pos h6] at h
                split at h
                · simp only [Option.some.injEq, Prod.mk.injEq] at h
                  rw [← h.1, wfJ_bool]
                · simp at h
              · rw [if_neg h6] at h
                by_cases h7 : c = 'f'
                · rw [if_pos h7] at h
                  split at h
                  · simp only [Option.some.injEq, Prod.mk.injEq] at h
                    rw [← h.1, wfJ_bool]
                  · simp at h
                · rw [if_neg h7] at h
                  by_cases h8 : c = 'n'
                  · rw [if_pos h8] at h
                    split at h
                    · simp only [Option.some.injEq, Prod.mk.injEq] at h
                      rw [← h.1, wfJ_null]
                    · simp at h
                  · rw [if_neg h8] at h
                    by_cases h9 : (c = '-' || isDig c) = true
                    · rw [if_pos h9] at h
                      obtain ⟨n, hn⟩ := parseNum_shape _ _ _ h
                      rw [hn, wfJ_num]
                    · rw [if_neg h9] at h
                      simp at h
    · intro cs l r h
      rw [parseArrRest] at h
      cases hsk : skipWs cs with
      | nil => rw [hsk] at h; simp at h
      | cons c cs1 =>
        rw [hsk] at h
        try dsimp only at h
        by_cases h1 : c = ']'
        · rw [if_pos h1] at h
          simp only [Option.some.injEq, Prod.mk.injEq] at h
          rw [← h.1, wfList]
        · rw [if_neg h1] at h
          by_cases h2 : c = ','
          · rw [if_pos h2] at h
            cases hpv : parseValue f cs1 with
            | none => rw [hpv] at h; simp at h
            | some p =>
              obtain ⟨v, r2⟩ := p
              rw [hpv] at h
              dsimp only at h
              cases hpa : parseArrRest f r2 with
              | none => rw [hpa] at h; simp at h
              | some q =>
                obtain ⟨vs, r3⟩ := q
                rw [hpa] at h
                try dsimp only at h
                simp only [Option.some.injEq, Prod.mk.injEq] at h
                rw [← h.1, wfList, ihV _ _ _ hpv, ihA _ _ _ hpa]
                rfl
          · rw [if_neg h2] at h
            simp at h
    · intro cs k v r h
      cases cs with
      | nil => rw [parseMember] at h; simp at h
      | cons c cs1 =>
        rw [parseMember] at h
        try dsimp only at h
        by_cases h1 : c = '"'
        · rw [if_pos h1] at h
          cases hps : parseStr (cs1.length + 1) cs1 with
          | none => rw [hps] at h; simp at h
          | some p =>
            obtain ⟨kc, r1⟩ := p
            rw [hps] at h
            try dsimp only at h
            cases hsk : skipWs r1 with
            | nil => rw [hsk] at h; simp at h
            | cons c2 r2 =>
              rw [hsk] at h
              try dsimp only at h
              by_cases h2 : c2 = ':'
              · rw [if_pos h2] at h
                cases hpv : parseValue f r2 with
                | none => rw [hpv] at h; simp at h
                | some q =>
                  obtain ⟨v1, r3⟩ := q
                  rw [hpv] at h
                  try dsimp only at h
                  simp only [Option.some.injEq, Prod.mk.injEq] at h
                  rw [← h.2.1]
                  exact ihV _ _ _ hpv
              · rw [if_neg h2] at h
                simp at h
        · rw [if_neg h1] at h
          simp at h
    · intro acc cs j r hnd hwm h
      rw [parseObjRest] at h
      cases hsk : skipWs cs with
      | nil => rw [hsk] at h; simp at h
      | cons c cs1 =>
        rw [hsk] at h
        try dsimp only at h
        by_cases h1 : c = rbrace
        · rw [if_pos h1] at h
          simp only [Option.some.injEq, Prod.mk.injEq] at h
          rw [← h.1]
          exact wfJ_obj acc hnd hwm
        · rw [if_neg h1] at h
          by_cases h2 : c = ','
          · rw [if_pos h2] at h
            cases hpm : parseMember f (skipWs cs1) with
            | none => rw [hpm] at h; simp at h
            | some t3 =>
              obtain ⟨k, v, r2⟩ := t3
              rw [hpm] at h
              try dsimp only at h
              exact ihO (dictInsert acc k v) r2 j r
                (nodupKeysB_dictInsert _ _ _ hnd)
                (wfMembers_dictInsert _ _ _ hwm (ihM _ _ _ _ hpm)) h
          · rw [if_neg h2] at h
            simp at h

end ParseWf




section RunLemmas

theorem append_empty_str (s : String) : s ++ "" = s := by
  cases s with
  | mk l => exact congrArg String.mk (List.append_nil l)

/-- Whatever `json.loads` returns is well-formed. -/
theorem jsonLoads_wf (s : String) (j : Json) (h : jsonLoads s = some j) : wfJ j = true := by
  unfold jsonLoads at h
  cases hp : parseValue (s.toList.length + 1) s.toList with
  | none => rw [hp] at h; simp at h
  | some p =>
    obtain ⟨v, rest⟩ := p
    rw [hp] at h
    dsimp only at h
    split at h
    · simp only [Option.some.injEq] at h
      rw [← h]
      exact (parse_wf (s.toList.length + 1)).1 _ _ _ hp
    · simp at h

/-- One handled request either leaves the log file alone or appends one
serialized well-formed object plus a newline. -/
theorem serverStep_shape (file : String) (r : Request) :
    serverStep file r = file ∨
    ∃ m, wfJ (Json.obj m) = true ∧
      serverStep file r = file ++ jsonDumps (Json.obj m) ++ "\n" := by
  cases r with
  | get => left; rfl
  | post hd st env =>
    rcases handlePost_file_cases hd st env file with hL | ⟨len, text, kvs, _, _, hparse, hR⟩
    · left
      show (handlePost hd st env file).file = file
      exact hL
    · right
      refine ⟨enrich env kvs, wfJ_enrich env kvs (jsonLoads_wf _ _ hparse), ?_⟩
      show (handlePost hd st env file).file = _
      exact hR

theorem goodFile_empty : goodFile "" := ⟨[], rfl, by simp⟩

theorem goodFile_append (file : String) (m : List (String × Json))
    (hw : wfJ (Json.obj m) = true) (hf : goodFile file) :
    goodFile (file ++ jsonDumps (Json.obj m) ++ "\n") := by
  obtain ⟨ls, hcat, hall⟩ := hf
  refine ⟨ls ++ [emitVal (Json.obj m)], ?_, ?_⟩
  · have e1 : ∀ a b : String, (a ++ b).toList = a.toList ++ b.toList := fun a b => rfl
    rw [e1, e1, hcat]
    simp [jsonDumps]
  · intro l hl
    rcases List.mem_append.mp hl with h1 | h2
    · exact hall l h1
    · have hl2 : l = emitVal (Json.obj m) := by simpa using h2
      subst hl2
      refine ⟨emit_no_nl _, Json.obj m, ?_⟩
      rw [show String.mk (emitVal (Json.obj m)) = jsonDumps (Json.obj m) from rfl]
      exact jsonLoads_dumps _ hw

theorem goodFile_step (file : String) (r : Request) (hf : goodFile file) :
    goodFile (serverStep file r) := by
  rcases serverStep_shape file r with h | ⟨m, hw, h⟩
  · rw [h]; exact hf
  · rw [h]; exact goodFile_append file m hw hf

theorem goodFile_run (reqs : List Request) (file : String) (hf : goodFile file) :
    goodFile (runRequests file reqs) := by
  induction reqs generalizing file with
  | nil => exact hf
  | cons r rs ih => exact ih _ (goodFile_step file r hf)

theorem splitNl_flat (ls : List (List Char))
    (h : ∀ l ∈ ls, ∀ x ∈ l, ¬ x = '\n') :
    splitNl (ls.flatMap (fun l => l ++ ['\n'])) = ls := by
  induction ls with
  | nil => rfl
  | cons a t ih =>
    rw [List.flatMap_cons]
    have e : (a ++ ['\n']) ++ t.flatMap (fun l => l ++ ['\n'])
        = a ++ '\n' :: t.flatMap (fun l => l ++ ['\n']) := by simp
    rw [e, splitNl_line a _ (h a (List.mem_cons_self a t)),
      ih (fun l hl => h l (List.mem_cons_of_mem _ hl))]

/-- Every line of a well-shaped log file parses as standalone JSON. -/
theorem goodFile_lines (file : String) (hf : goodFile file) :
    ∀ l ∈ splitNl file.toList, ∃ j, jsonLoads (String.mk l) = some j := by
  obtain ⟨ls, hcat, hall⟩ := hf
  rw [hcat, splitNl_flat ls (fun l hl => (hall l hl).1)]
  intro l hl
  exact (hall l hl).2

end RunLemmas


section Claims

theorem dtW_valid : dtW.valid := by
  unfold PyDateTime.valid
  decide

/-- C1 (amended): for every POST request whose body is a valid JSON object
with a string (or absent) `message`, a workable `timestamp`, and a
falsy-or-object `data`, the handler responds HTTP 200 with body
`{"status":"ok"}` and Content-Type `application/json`, and appends exactly
one line to the log file holding the posted object enriched with a
`server_time` field in valid ISO-8601 format, all other fields preserved. -/
theorem claim_C1 (header : Option String) (stream : List Nat) (env : PostEnv)
    (file : String) (len : Int) (text : List Char) (kvs : List (String × Json))
    (msg timeStr : String)
    (hvalid : env.nowIso.valid)
    (hlen : contentLengthOf header = some len)
    (hdec : utf8Decode (stream.take len.toNat) = some text)
    (hparse : jsonLoads (String.mk text) = some (Json.obj kvs))
    (hmsg : dictGet kvs "message" (Json.str "") = Json.str msg)
    (htime : displayTime env (dictGet kvs "timestamp" (Json.num 0)) = some timeStr)
    (hdata : pyTruthy (dictGet kvs "data" (Json.obj [])) = false ∨
             ∃ dkvs, dictGet kvs "data" (Json.obj []) = Json.obj dkvs) :
    (handlePost header stream env file).response
        = Response.ok200 "application/json" okBody ∧
    (handlePost header stream env file).file
        = file ++ jsonDumps (Json.obj (enrich env kvs)) ++ "\n" ∧
    dictGet (enrich env kvs) "server_time" Json.null
        = Json.str (isoformat env.nowIso) ∧
    isISO8601 (isoformat env.nowIso) = true ∧
    (∀ k dflt, ¬ k = "server_time" →
        dictGet (enrich env kvs) k dflt = dictGet kvs k dflt) := by
  have h := handlePost_ok header stream env file len text kvs msg timeStr
    hlen hdec hparse hmsg htime hdata
  refine ⟨by rw [h], by rw [h], dictGet_dictInsert_self kvs _ _ _,
    isISO8601_isoformat _ hvalid, ?_⟩
  intro k dflt hk
  exact dictGet_dictInsert_ne kvs k "server_time" _ dflt (fun e => hk e.symm)

theorem claim_C1_witness :
    (handlePost (some "17") (asciiBytes "\x7b\"message\": \"hi\"\x7d") envW "").response
        = Response.ok200 "application/json" okBody ∧
    (handlePost (some "17") (asciiBytes "\x7b\"message\": \"hi\"\x7d") envW "").file
        = "" ++ jsonDumps (Json.obj (enrich envW [("message", Json.str "hi")])) ++ "\n" ∧
    dictGet (enrich envW [("message", Json.str "hi")]) "server_time" Json.null
        = Json.str (isoformat envW.nowIso) ∧
    isISO8601 (isoformat envW.nowIso) = true ∧
    (∀ k dflt, ¬ k = "server_time" →
        dictGet (enrich envW [("message", Json.str "hi")]) k dflt
          = dictGet [("message", Json.str "hi")] k dflt) :=
  claim_C1 (some "17") (asciiBytes "\x7b\"message\": \"hi\"\x7d") envW "" 17
    ("\x7b\"message\": \"hi\"\x7d".toList) [("message", Json.str "hi")]
    "hi" (pyTimeStr envW.nowDisp) dtW_valid rfl rfl rfl rfl rfl (Or.inl rfl)

/-- C1 counterexample: `{"message": 1234}` is a valid JSON object, yet
`message.upper()` raises `AttributeError`, so there is no 200 response and
nothing is appended. -/
theorem claim_C1_cex :
    (handlePost (some "17") (asciiBytes "\x7b\"message\": 1234\x7d") envW "").response
        = Response.unhandled PyExc.attributeError ∧
    (handlePost (some "17") (asciiBytes "\x7b\"message\": 1234\x7d") envW "").file = "" :=
  ⟨rfl, rfl⟩

/-- C2 (amended): for every POST body that decodes as UTF-8 text but fails
JSON parsing, the handler prints the decode error and the first 200 bytes of
the body, responds HTTP 400, and appends nothing. -/
theorem claim_C2 (header : Option String) (stream : List Nat) (env : PostEnv)
    (file : String) (len : Int) (text : List Char)
    (hlen : contentLengthOf header = some len)
    (hdec : utf8Decode (stream.take len.toNat) = some text)
    (hparse : jsonLoads (String.mk text) = none) :
    handlePost header stream env file =
      ⟨Response.err400, file,
       [ConsoleOut.decodeErr, ConsoleOut.bodyDump ((stream.take len.toNat).take 200)]⟩ := by
  simp only [handlePost, hlen, hdec, hparse]

theorem claim_C2_witness :
    handlePost (some "3") (asciiBytes "abc") envW "" =
      ⟨Response.err400, "",
       [ConsoleOut.decodeErr,
        ConsoleOut.bodyDump (((asciiBytes "abc").take (3 : Int).toNat).take 200)]⟩ :=
  claim_C2 (some "3") (asciiBytes "abc") envW "" 3 ['a', 'b', 'c'] rfl rfl rfl

/-- C2 counterexample: the body `0xff 0x30` fails UTF-8 decoding, and the
resulting `UnicodeDecodeError` is not a `json.JSONDecodeError`, so it escapes
the handler: no 400 response and no console dump are produced. -/
theorem claim_C2_cex :
    handlePost (some "2") [255, 48] envW "" =
      ⟨Response.unhandled PyExc.unicodeDecodeError, "", []⟩ := rfl

/-- C3 (amended): an absent or falsy `timestamp` degrades to the fallback
(current wall-clock display time) and, with a string `message` and a
falsy-or-object `data`, the request still completes with HTTP 200. -/
theorem claim_C3 (env : PostEnv) (kvs : List (String × Json)) (file : String)
    (msg : String)
    (hts : pyTruthy (dictGet kvs "timestamp" (Json.num 0)) = false)
    (hmsg : dictGet kvs "message" (Json.str "") = Json.str msg)
    (hdata : pyTruthy (dictGet kvs "data" (Json.obj [])) = false ∨
             ∃ dkvs, dictGet kvs "data" (Json.obj []) = Json.obj dkvs) :
    displayTime env (dictGet kvs "timestamp" (Json.num 0))
        = some (pyTimeStr env.nowDisp) ∧
    (eventSink env (Json.obj kvs) file).response
        = Response.ok200 "application/json" okBody := by
  have hdt : displayTime env (dictGet kvs "timestamp" (Json.num 0))
      = some (pyTimeStr env.nowDisp) := by
    rw [displayTime, if_neg]
    simp [hts]
  refine ⟨hdt, ?_⟩
  rw [eventSink_ok env kvs file msg (pyTimeStr env.nowDisp) hmsg hdt hdata]

theorem claim_C3_witness :
    displayTime envW (dictGet [("message", Json.str "hi")] "timestamp" (Json.num 0))
        = some (pyTimeStr envW.nowDisp) ∧
    (eventSink envW (Json.obj [("message", Json.str "hi")]) "").response
        = Response.ok200 "application/json" okBody :=
  claim_C3 envW [("message", Json.str "hi")] "" "hi" rfl rfl (Or.inl rfl)

/-- C3 counterexample: `{"timestamp": "abc"}` has a truthy non-numeric
`timestamp`; `timestamp/1000` raises `TypeError`, which escapes the handler
instead of degrading to the wall-clock fallback. -/
theorem claim_C3_cex :
    (handlePost (some "20") (asciiBytes "\x7b\"timestamp\": \"abc\"\x7d") envW "").response
        = Response.unhandled PyExc.typeError := rfl

/-- C4: on the success path the console header carries exactly the
first-match priority color — red on ERROR/FAIL in the uppercased message,
else yellow on currentIDs/optimisticIDs in the string form of `data`, else
cyan on restore, else magenta on notify, else green — a pure function of the
message and `data` only. -/
theorem claim_C4 (env : PostEnv) (kvs : List (String × Json)) (file : String)
    (msg timeStr : String)
    (hmsg : dictGet kvs "message" (Json.str "") = Json.str msg)
    (htime : displayTime env (dictGet kvs "timestamp" (Json.num 0)) = some timeStr)
    (hdata : pyTruthy (dictGet kvs "data" (Json.obj [])) = false ∨
             ∃ dkvs, dictGet kvs "data" (Json.obj []) = Json.obj dkvs) :
    (eventSink env (Json.obj kvs) file).console =
      ConsoleOut.header
        (if strHasSub (pyUpper msg) "ERROR" || strHasSub (pyUpper msg) "FAIL" then
          Color.red
         else if strHasSub (pyStr (dictGet kvs "data" (Json.obj []))) "currentIDs"
             || strHasSub (pyStr (dictGet kvs "data" (Json.obj []))) "optimisticIDs" then
          Color.yellow
         else if strHasSub (pyLower msg) "restore" then Color.cyan
         else if strHasSub (pyLower msg) "notify" then Color.magenta
         else Color.green)
        timeStr (dictGet kvs "hypothesisId" (Json.str ""))
        (dictGet kvs "location" (Json.str "unknown"))
      :: ConsoleOut.msgLine msg
      :: (dataConsole (dictGet kvs "data" (Json.obj [])) ++ [ConsoleOut.blankLine]) := by
  rw [eventSink_ok env kvs file msg timeStr hmsg htime hdata]
  rfl

theorem claim_C4_witness :
    (eventSink envW
        (Json.obj [("message", Json.str "ok"),
          ("data", Json.obj [("currentIDs", Json.arr [Json.num 1])])]) "").console =
      ConsoleOut.header
        (if strHasSub (pyUpper "ok") "ERROR" || strHasSub (pyUpper "ok") "FAIL" then
          Color.red
         else if strHasSub (pyStr (dictGet [("message", Json.str "ok"),
               ("data", Json.obj [("currentIDs", Json.arr [Json.num 1])])]
               "data" (Json.obj []))) "currentIDs"
             || strHasSub (pyStr (dictGet [("message", Json.str "ok"),
               ("data", Json.obj [("currentIDs", Json.arr [Json.num 1])])]
               "data" (Json.obj []))) "optimisticIDs" then
          Color.yellow
         else if strHasSub (pyLower "ok") "restore" then Color.cyan
         else if strHasSub (pyLower "ok") "notify" then Color.magenta
         else Color.green)
        (pyTimeStr envW.nowDisp)
        (dictGet [("message", Json.str "ok"),
          ("data", Json.obj [("currentIDs", Json.arr [Json.num 1])])]
          "hypothesisId" (Json.str ""))
        (dictGet [("message", Json.str "ok"),
          ("data", Json.obj [("currentIDs", Json.arr [Json.num 1])])]
          "location" (Json.str "unknown"))
      :: ConsoleOut.msgLine "ok"
      :: (dataConsole (dictGet [("message", Json.str "ok"),
            ("data", Json.obj [("currentIDs", Json.arr [Json.num 1])])]
            "data" (Json.obj [])) ++ [ConsoleOut.blankLine]) :=
  claim_C4 envW
    [("message", Json.str "ok"), ("data", Json.obj [("currentIDs", Json.arr [Json.num 1])])]
    "" "ok" (pyTimeStr envW.nowDisp) rfl rfl
    (Or.inr ⟨[("currentIDs", Json.arr [Json.num 1])], rfl⟩)

/-- C5: a truthy numeric `timestamp` is interpreted as milliseconds since
epoch (divided by 1000 before the local-time conversion) and formatted as
zero-padded `HH:MM:SS.mmm` with `mmm` the first three digits of the
fractional seconds; otherwise the current local time is formatted the same
way. -/
theorem claim_C5 (env : PostEnv) (ts : Json) (q : Rat) (dt : PyDateTime)
    (hq : jsonAsNum ts = some q)
    (hft : env.fromTs (q / 1000) = some dt)
    (hu : dt.microsecond < 1000000)
    (hu2 : env.nowDisp.microsecond < 1000000) :
    (pyTruthy ts = true → displayTime env ts
        = some (String.mk (padDec 2 dt.hour ++ ':' :: padDec 2 dt.minute
            ++ ':' :: padDec 2 dt.second ++ '.' :: padDec 3 (dt.microsecond / 1000)))) ∧
    (pyTruthy ts = false → displayTime env ts
        = some (String.mk (padDec 2 env.nowDisp.hour ++ ':' :: padDec 2 env.nowDisp.minute
            ++ ':' :: padDec 2 env.nowDisp.second
            ++ '.' :: padDec 3 (env.nowDisp.microsecond / 1000)))) := by
  constructor
  · intro ht
    rw [displayTime, if_pos ht, hq]
    dsimp only
    rw [hft]
    dsimp only
    rw [pyTimeStr_eq dt hu, padDec_six_take_three _ hu]
  · intro ht
    rw [displayTime, if_neg (by simp [ht])]
    rw [pyTimeStr_eq env.nowDisp hu2, padDec_six_take_three _ hu2]

theorem claim_C5_witness :
    (pyTruthy (Json.num 1717243805123) = true →
      displayTime envT (Json.num 1717243805123)
        = some (String.mk (padDec 2 dtW.hour ++ ':' :: padDec 2 dtW.minute
            ++ ':' :: padDec 2 dtW.second ++ '.' :: padDec 3 (dtW.microsecond / 1000)))) ∧
    (pyTruthy (Json.num 1717243805123) = false →
      displayTime envT (Json.num 1717243805123)
        = some (String.mk (padDec 2 envT.nowDisp.hour ++ ':' :: padDec 2 envT.nowDisp.minute
            ++ ':' :: padDec 2 envT.nowDisp.second
            ++ '.' :: padDec 3 (envT.nowDisp.microsecond / 1000)))) :=
  claim_C5 envT (Json.num 1717243805123) ((1717243805123 : Int) : Rat) dtW
    rfl rfl (by decide) (by decide)

/-- C6: for every posted object — including one carrying a client-supplied
`server_time` — enrichment stores the current ISO-8601 receipt time under
`server_time`, overwriting any existing value, and the record the sink
persists (when it persists one) is exactly this enriched record. -/
theorem claim_C6 (env : PostEnv) (kvs : List (String × Json)) (file : String)
    (dflt : Json) (hvalid : env.nowIso.valid) :
    dictGet (enrich env kvs) "server_time" dflt = Json.str (isoformat env.nowIso) ∧
    isISO8601 (isoformat env.nowIso) = true ∧
    ((eventSink env (Json.obj kvs) file).file = file ∨
     (eventSink env (Json.obj kvs) file).file
       = file ++ jsonDumps (Json.obj (enrich env kvs)) ++ "\n") := by
  refine ⟨dictGet_dictInsert_self kvs _ _ dflt, isISO8601_isoformat _ hvalid, ?_⟩
  rcases eventSink_file_cases env (Json.obj kvs) file with h | ⟨kvs2, heq, h⟩
  · left; exact h
  · right
    have hk : kvs = kvs2 := Json.obj.inj heq
    rw [← hk] at h
    exact h

theorem claim_C6_witness :
    dictGet (enrich envW [("server_time", Json.str "client"), ("message", Json.str "hi")])
        "server_time" Json.null = Json.str (isoformat envW.nowIso) ∧
    isISO8601 (isoformat envW.nowIso) = true ∧
    ((eventSink envW (Json.obj [("server_time", Json.str "client"),
        ("message", Json.str "hi")]) "").file = "" ∨
     (eventSink envW (Json.obj [("server_time", Json.str "client"),
        ("message", Json.str "hi")]) "").file
       = "" ++ jsonDumps (Json.obj (enrich envW
           [("server_time", Json.str "client"), ("message", Json.str "hi")])) ++ "\n") :=
  claim_C6 envW [("server_time", Json.str "client"), ("message", Json.str "hi")]
    "" Json.null dtW_valid

/-- C7: the serialized enriched record parses back to exactly itself — the
fields sent, with values preserved under every key other than `server_time`,
plus the `server_time` entry — and after any sequence of requests starting
from an empty log file every line of the file parses as standalone JSON. -/
theorem claim_C7 (reqs : List Request) (s : String) (env : PostEnv)
    (kvs : List (String × Json))
    (hparse : jsonLoads s = some (Json.obj kvs)) :
    (jsonLoads (jsonDumps (Json.obj (enrich env kvs)))
        = some (Json.obj (enrich env kvs)) ∧
     dictGet (enrich env kvs) "server_time" Json.null
        = Json.str (isoformat env.nowIso) ∧
     (∀ k dflt, ¬ k = "server_time" →
        dictGet (enrich env kvs) k dflt = dictGet kvs k dflt) ∧
     dictKeys (enrich env kvs)
       = (if "server_time" ∈ dictKeys kvs then dictKeys kvs
          else dictKeys kvs ++ ["server_time"])) ∧
    (∀ l ∈ splitNl (runRequests "" reqs).toList,
        ∃ j, jsonLoads (String.mk l) = some j) := by
  have hwf : wfJ (Json.obj kvs) = true := jsonLoads_wf _ _ hparse
  refine ⟨⟨jsonLoads_dumps _ (wfJ_enrich env kvs hwf),
    dictGet_dictInsert_self kvs _ _ _, ?_, ?_⟩, ?_⟩
  · intro k dflt hk
    exact dictGet_dictInsert_ne kvs k "server_time" _ dflt (fun e => hk e.symm)
  · by_cases hmem : "server_time" ∈ dictKeys kvs
    · rw [if_pos hmem]
      exact dictKeys_dictInsert_mem kvs "server_time" _ hmem
    · rw [if_neg hmem]
      exact dictKeys_dictInsert_not_mem kvs "server_time" _ hmem
  · exact goodFile_lines _ (goodFile_run reqs "" goodFile_empty)

theorem claim_C7_witness :
    (jsonLoads (jsonDumps (Json.obj (enrich envW [("message", Json.str "hi")])))
        = some (Json.obj (enrich envW [("message", Json.str "hi")])) ∧
     dictGet (enrich envW [("message", Json.str "hi")]) "server_time" Json.null
        = Json.str (isoformat envW.nowIso) ∧
     (∀ k dflt, ¬ k = "server_time" →
        dictGet (enrich envW [("message", Json.str "hi")]) k dflt
          = dictGet [("message", Json.str "hi")] k dflt) ∧
     dictKeys (enrich envW [("message", Json.str "hi")])
       = (if "server_time" ∈ dictKeys [("message", Json.str "hi")] then
            dictKeys [("message", Json.str "hi")]
          else dictKeys [("message", Json.str "hi")] ++ ["server_time"])) ∧
    (∀ l ∈ splitNl (runRequests ""
        [Request.post (some "17") (asciiBytes "\x7b\"message\": \"hi\"\x7d") envW,
         Request.get]).toList,
        ∃ j, jsonLoads (String.mk l) = some j) :=
  claim_C7
    [Request.post (some "17") (asciiBytes "\x7b\"message\": \"hi\"\x7d") envW, Request.get]
    "\x7b\"message\": \"hi\"\x7d" envW [("message", Json.str "hi")] rfl

/-- C8: each handled request leaves the previous log-file content unchanged
as a prefix; any number of GET requests leaves the file untouched; a POST at
most appends one complete newline-terminated line. -/
theorem claim_C8 (file : String) :
    (∀ r : Request, ∃ suffix : String, serverStep file r = file ++ suffix) ∧
    (∀ n : Nat, runRequests file (List.replicate n Request.get) = file) ∧
    (∀ hd st env, (handlePost hd st env file).file = file ∨
       ∃ line : List Char, (∀ x ∈ line, ¬ x = '\n') ∧
         (handlePost hd st env file).file = file ++ String.mk line ++ "\n") := by
  refine ⟨?_, ?_, ?_⟩
  · intro r
    rcases serverStep_shape file r with h | ⟨m, _, h⟩
    · exact ⟨"", by rw [h, append_empty_str]⟩
    · exact ⟨jsonDumps (Json.obj m) ++ "\n", by rw [h, String.append_assoc]⟩
  · intro n
    induction n with
    | zero => rfl
    | succ k ih =>
      rw [List.replicate_succ, runRequests]
      exact ih
  · intro hd st env
    rcases handlePost_file_cases hd st env file with h | ⟨len, text, kvs, _, _, _, h⟩
    · left; exact h
    · right
      exact ⟨emitVal (Json.obj (enrich env kvs)), emit_no_nl _, h⟩

/-- C9: a POST with no Content-Length header (Python defaults it to `0`), or
with Content-Length `0`, reads an empty body, which fails JSON parsing: the
response is 400, the console shows the decode error and an empty body dump,
and the log file is unchanged. -/
theorem claim_C9 (stream : List Nat) (env : PostEnv) (file : String) :
    handlePost none stream env file
      = ⟨Response.err400, file, [ConsoleOut.decodeErr, ConsoleOut.bodyDump []]⟩ ∧
    handlePost (some "0") stream env file
      = ⟨Response.err400, file, [ConsoleOut.decodeErr, ConsoleOut.bodyDump []]⟩ :=
  ⟨rfl, rfl⟩

/-- C10: a POST body that is valid JSON but not an object makes the
`data['server_time']` assignment raise `TypeError`, which the
`except json.JSONDecodeError` clause does not catch: the handler produces
neither a 200 nor a 400 response and appends nothing. -/
theorem claim_C10 (header : Option String) (stream : List Nat) (env : PostEnv)
    (file : String) (len : Int) (text : List Char) (j : Json)
    (hlen : contentLengthOf header = some len)
    (hdec : utf8Decode (stream.take len.toNat) = some text)
    (hparse : jsonLoads (String.mk text) = some j)
    (hnotobj : ∀ kvs, ¬ j = Json.obj kvs) :
    handlePost header stream env file
      = ⟨Response.unhandled PyExc.typeError, file, []⟩ := by
  simp only [handlePost, hlen, hdec, hparse]
  cases j with
  | obj kvs => exact absurd rfl (hnotobj kvs)
  | null => rfl
  | bool b => rfl
  | num n => rfl
  | str st2 => rfl
  | arr l => rfl

theorem claim_C10_witness :
    handlePost (some "6") (asciiBytes "[1, 2]") envW ""
      = ⟨Response.unhandled PyExc.typeError, "", []⟩ :=
  claim_C10 (some "6") (asciiBytes "[1, 2]") envW "" 6
    ['[', '1', ',', ' ', '2', ']'] (Json.arr [Json.num 1, Json.num 2])
    rfl rfl rfl (fun _ h => nomatch h)

end Claims


end DebugLog
